import Mathlib

/-!
Verification of the SmartCommit evaluation, hallucination-detection and
safety-severity engine, together with its multi-agent control loop.

The Python sources are shallowly embedded:
* floats are modelled as rationals, with Python's `round(x, n)`
  (round-half-to-even) modelled exactly on rationals by `pyRound`;
* the external NLTK tokenizer `word_tokenize`, the NLTK stopword list and
  the transcendental `math.exp` / `math.log` float routines are abstracted
  as parameters of a `TokEnv` record (they are library code, not code of
  this repository); everything else — n-gram extraction, clipped counts,
  the LCS table, the grounding loop, the severity/confidence tables, the
  warning generator, input validation and output sanitation — is embedded
  concretely from the source;
* Python's dynamic typing at the one call site that passes a bool where a
  float is expected (`ValidatorAgent.execute`) is modelled by a small
  `PyVal` dynamic-value type with Python truthiness.
-/

namespace SmartCommit

/-- Dynamic Python value, used to model the stringly-typed dicts that
`evaluate_message` returns and `ValidatorAgent.execute` reads. -/
inductive PyVal where
  | float (q : ℚ)
  | int (n : ℤ)
  | bool (b : Bool)
  | str (s : String)
  | list (l : List PyVal)
  | dict (l : List (String × PyVal))
deriving Repr

/-- Python truthiness (`bool(x)`): zero numbers, empty strings and empty
containers are falsy. -/
def pyTruthy : PyVal → Bool
  | .float q => q ≠ 0
  | .int n => n ≠ 0
  | .bool b => b
  | .str s => s ≠ ""
  | .list l => !l.isEmpty
  | .dict l => !l.isEmpty

/-- Numeric coercion used when a `PyVal` flows into an arithmetic
comparison (Python treats `bool` as the integers 0/1). Non-numeric values
do not occur in comparisons in the embedded code. -/
def pyToQ : PyVal → ℚ
  | .float q => q
  | .int n => (n : ℚ)
  | .bool b => if b then 1 else 0
  | .str _ => 0
  | .list _ => 0
  | .dict _ => 0

/-- Python's `dict.get(key, default)` on an association list. -/
def dictGet (d : List (String × PyVal)) (k : String) (dflt : PyVal) : PyVal :=
  match d.find? (fun kv => kv.1 = k) with
  | some kv => kv.2
  | none => dflt

/-- Round-half-to-even of a rational to the nearest integer. -/
def roundHalfEven (y : ℚ) : ℤ :=
  if y - (⌊y⌋ : ℚ) < 1/2 then ⌊y⌋
  else if 1/2 < y - (⌊y⌋ : ℚ) then ⌊y⌋ + 1
  else if 2 ∣ ⌊y⌋ then ⌊y⌋ else ⌊y⌋ + 1

/-- Python's `round(q, n)` on rationals: scale by `10 ^ n`, round half to
even, scale back. -/
def pyRound (q : ℚ) (n : ℕ) : ℚ :=
  (roundHalfEven (q * (10 : ℚ) ^ n) : ℚ) / (10 : ℚ) ^ n

/-- Python's `str.lower()` (identical to `String.toLower`, stated on the
character list so that it evaluates by structural recursion). -/
def pyLower (s : String) : String :=
  String.mk (s.data.map Char.toLower)

/-- Split a character list at newline characters (Python `split('\n')`). -/
def splitNewlineChars : List Char → List (List Char)
  | [] => [[]]
  | c :: cs =>
    match splitNewlineChars cs with
    | x :: xs => if c = '\n' then [] :: x :: xs else (c :: x) :: xs
    | [] => if c = '\n' then [[], []] else [[c]]

/-- Python's `s.split('\n')` (identical to `String.splitOn "\n"`, stated
structurally). -/
def pySplitLines (s : String) : List String :=
  (splitNewlineChars s.data).map String.mk

/-- Python's `s.startswith(pre)` (identical to `String.startsWith`, stated
structurally). -/
def pyStartsWith (s pre : String) : Bool :=
  pre.data.isPrefixOf s.data

/-- Environment of external library functions consumed by the evaluator:
`wt` is NLTK's `word_tokenize`, `stop` the NLTK English stopword test, and
`fexp` / `flog` are the float routines `math.exp` / `math.log`. They are
external collaborators of the repository, abstracted as parameters. -/
structure TokEnv where
  wt : String → List String
  stop : String → Bool
  fexp : ℚ → ℚ
  flog : ℚ → ℚ

/-- Python's `str.isalnum()` restricted to the ASCII alphanumerics that the
embedded token examples use. -/
def pyIsAlnum (s : String) : Bool :=
  s ≠ "" && s.data.all Char.isAlphanum

/-- Fixed allow-list `allowed_technical_terms` of `CommitMessageEvaluator`
(`src/api/evaluate_simple.py`). -/
def allowed_technical_terms : List String :=
  ["fix", "bug", "issue", "error", "refactor", "update", "add",
   "remove", "delete", "implement", "feature", "change", "modify",
   "improve", "optimize", "clean", "rename", "move", "merge",
   "function", "method", "class", "variable", "parameter", "return",
   "import", "export", "test", "tests", "testing", "code", "file"]

/-- Model of `_extract_meaningful_tokens`: tokenize the lower-cased text,
keep alphanumeric tokens that are not stopwords and have length above 2. -/
def extract_meaningful_tokens (tok : TokEnv) (text : String) : List String :=
  (tok.wt (pyLower text)).filter
    (fun t => pyIsAlnum t && !tok.stop t && 2 < t.length)

/-- Model of the multiline substitution `re.sub(r'^[+-]', '', diff)`:
remove one leading `+` or `-` from every line. -/
def stripPlusMinus (s : String) : String :=
  String.intercalate "\n"
    ((pySplitLines s).map (fun l =>
      match l.data with
      | c :: rest => if c = '+' ∨ c = '-' then String.mk rest else l
      | [] => l))

/-- Helper for `re.sub(tag ++ '.*?\n', '', s)`: drop characters up to and
including the first newline. -/
def dropThroughNewline : List Char → List Char
  | [] => []
  | c :: cs => if c = '\n' then cs else dropThroughNewline cs

/-- Fuel-driven worker for `subTagToNewline` (each step consumes one unit
of fuel and at least one character, so `l.length` fuel always suffices). -/
def subTagToNewlineAux (tag : List Char) : ℕ → List Char → List Char
  | 0, l => l
  | _ + 1, [] => []
  | fuel + 1, c :: cs =>
    if tag.isPrefixOf (c :: cs) ∧ '\n' ∈ List.drop (tag.length - 1) cs then
      subTagToNewlineAux tag fuel (dropThroughNewline (List.drop (tag.length - 1) cs))
    else
      c :: subTagToNewlineAux tag fuel cs

/-- Model of `re.sub(tag ++ '.*?\n', '', s)` for a newline-free `tag`: each
occurrence of `tag` followed (somewhere on the same input) by a newline is
removed together with the rest of its line. -/
def subTagToNewline (tag : List Char) (l : List Char) : List Char :=
  subTagToNewlineAux tag l.length l

/-- Scan for the closing `@@` of a hunk marker on the current line; returns
the suffix after it when the non-greedy pattern `@@.*?@@` can match. -/
def findHunkClose : List Char → Option (List Char)
  | a :: b :: rest =>
    if a = '@' ∧ b = '@' then some rest
    else if a = '\n' then none
    else findHunkClose (b :: rest)
  | _ => none

/-- Fuel-driven worker for `subHunkMarkers`. -/
def subHunkMarkersAux : ℕ → List Char → List Char
  | 0, l => l
  | _ + 1, [] => []
  | fuel + 1, c :: cs =>
    match findHunkClose (c :: cs) with
    | some rest =>
      if c = '@' ∧ cs.headD ' ' = '@' then subHunkMarkersAux fuel rest
      else c :: subHunkMarkersAux fuel cs
    | none => c :: subHunkMarkersAux fuel cs

/-- Model of `re.sub(r'@@.*?@@', '', s)`: remove every `@@ ... @@` pair that
closes before the next newline. -/
def subHunkMarkers (l : List Char) : List Char :=
  subHunkMarkersAux l.length l

/-- Model of `_extract_diff_tokens`: strip the per-line `+`/`-` prefixes,
the `diff --git ...` and `index ...` lines and the `@@ ... @@` hunk
markers, then tokenize the lower-cased remainder. -/
def extract_diff_tokens (tok : TokEnv) (diff : String) : List String :=
  let s1 := stripPlusMinus diff
  let s2 := String.mk (subTagToNewline "diff --git".data s1.data)
  let s3 := String.mk (subTagToNewline "index".data s2.data)
  let s4 := String.mk (subHunkMarkers s3.data)
  tok.wt (pyLower s4)

/-- Report returned by `detect_hallucination`. -/
structure HallucinationReport where
  detected : Bool
  hallucination_rate : ℚ
  ungrounded_tokens : List String
  total_tokens_checked : ℕ
deriving Repr

/-- Case-insensitive Python substring test `a.lower() in b.lower()`. -/
def lowerSubstring (a b : String) : Bool :=
  decide ((pyLower a).data <:+: (pyLower b).data)

/-- Checked tokens of the grounding loop of `detect_hallucination`: the
meaningful message tokens outside the `allowed_technical_terms` allow-list
(those for which `total_checked` is incremented). -/
def checkedTokens (tok : TokEnv) (message : String) : List String :=
  (extract_meaningful_tokens tok message).filter
    (fun t => !allowed_technical_terms.contains (pyLower t))

/-- The ungrounded tokens of the grounding loop: checked tokens that are
not a case-insensitive substring of any diff token. -/
def ungroundedTokens (tok : TokEnv) (message diff : String) : List String :=
  (checkedTokens tok message).filter
    (fun t => !(extract_diff_tokens tok diff).any (fun d => lowerSubstring t d))

/-- The exact (unrounded) hallucination rate `ungrounded / checked`, zero
when nothing was checked. -/
def rawHallucinationRate (tok : TokEnv) (message diff : String) : ℚ :=
  if (checkedTokens tok message).length = 0 then 0
  else ((ungroundedTokens tok message diff).length : ℚ) /
    ((checkedTokens tok message).length : ℚ)

/-- Model of `detect_hallucination` (`src/api/evaluate_simple.py` with
threshold 0.10; `src/Phase3_Submission/code/api/evaluate.py` is the same
code with threshold 0.15, so the detection threshold is a parameter):
meaningful message tokens outside the allow-list are checked, and a token
is ungrounded when it is not a case-insensitive substring of any diff
token. The returned rate is `round(ungrounded/checked, 4)` while the
detection flag compares the unrounded rate against the threshold. -/
def detect_hallucination (tok : TokEnv) (threshold : ℚ)
    (message diff : String) : HallucinationReport :=
  { detected := decide (rawHallucinationRate tok message diff > threshold)
    hallucination_rate := pyRound (rawHallucinationRate tok message diff) 4
    ungrounded_tokens := ungroundedTokens tok message diff
    total_tokens_checked := (checkedTokens tok message).length }

/-- N-gram list of `_get_ngrams`; `length + 1 - n` equals Python's
`len(tokens) - n + 1` floored at zero (for `n ≥ 1`), so no spurious short
n-grams appear for short token lists. -/
def getNgrams (tokens : List String) (n : ℕ) : List (List String) :=
  (List.range (tokens.length + 1 - n)).map (fun i => (tokens.drop i).take n)

/-- Clipped match count `sum((Counter(gen) & Counter(ref)).values())`. -/
def counterMatches (gen ref : List (List String)) : ℕ :=
  (gen.dedup.map (fun g => min (gen.count g) (ref.count g))).sum

/-- Modified n-gram precision of `compute_bleu` for one n: clipped matches
over total candidate n-grams, 0 when the candidate has no such n-grams. -/
def bleuPrecision (tok : TokEnv) (generated reference : String) (n : ℕ) : ℚ :=
  if (getNgrams (tok.wt (pyLower generated)) n).length = 0 then 0
  else (counterMatches (getNgrams (tok.wt (pyLower generated)) n)
          (getNgrams (tok.wt (pyLower reference)) n) : ℚ) /
    ((getNgrams (tok.wt (pyLower generated)) n).length : ℚ)

/-- The four modified precisions (n = 1..4) of `compute_bleu`. -/
def bleuPrecisions (tok : TokEnv) (generated reference : String) : List ℚ :=
  (List.range 4).map (fun k => bleuPrecision tok generated reference (k + 1))

/-- Geometric mean of the precisions through `exp`/`log`, zero if any
precision is zero. -/
def bleuGeoMean (tok : TokEnv) (generated reference : String) : ℚ :=
  if (bleuPrecisions tok generated reference).all (fun p => 0 < p) then
    tok.fexp (((bleuPrecisions tok generated reference).map tok.flog).sum / 4)
  else 0

/-- Brevity penalty of `compute_bleu`. -/
def brevityPenalty (tok : TokEnv) (generated reference : String) : ℚ :=
  if (tok.wt (pyLower reference)).length ≤ (tok.wt (pyLower generated)).length then 1
  else tok.fexp (1 - ((tok.wt (pyLower reference)).length : ℚ) /
    ((tok.wt (pyLower generated)).length : ℚ))

/-- Model of `compute_bleu`: modified n-gram precisions for n = 1..4,
geometric mean through `exp`/`log` (zero if any precision is zero), brevity
penalty, scaled to 0-100 and rounded to 2 decimals. -/
def compute_bleu (tok : TokEnv) (generated reference : String) : ℚ :=
  if (tok.wt (pyLower generated)).length = 0 then 0
  else pyRound (brevityPenalty tok generated reference *
    bleuGeoMean tok generated reference * 100) 2

/-- Model of `_rouge_n`: recall-oriented n-gram overlap. -/
def rouge_n (gen_tokens ref_tokens : List String) (n : ℕ) : ℚ :=
  let gen_ngrams := getNgrams gen_tokens n
  let ref_ngrams := getNgrams ref_tokens n
  if ref_ngrams.length = 0 then 0
  else (counterMatches gen_ngrams ref_ngrams : ℚ) / (ref_ngrams.length : ℚ)

/-- Fuel-driven worker for the longest-common-subsequence table (`i + j`
fuel always suffices, and the fuel makes the recursion structural). -/
def lcsTableAux (s1 s2 : List String) : ℕ → ℕ → ℕ → ℕ
  | 0, _, _ => 0
  | _ + 1, 0, _ => 0
  | _ + 1, _ + 1, 0 => 0
  | fuel + 1, i + 1, j + 1 =>
    if s1.getD i "" = s2.getD j "" then lcsTableAux s1 s2 fuel i j + 1
    else max (lcsTableAux s1 s2 fuel i (j + 1)) (lcsTableAux s1 s2 fuel (i + 1) j)

/-- Prefix-table recurrence of `_lcs`: `lcsTable s1 s2 i j` is the DP entry
`dp[i][j]` of the classic longest-common-subsequence table. -/
def lcsTable (s1 s2 : List String) (i j : ℕ) : ℕ :=
  lcsTableAux s1 s2 (i + j) i j

/-- Model of `_lcs`: the full-table entry `dp[m][n]`. -/
def lcs (s1 s2 : List String) : ℕ := lcsTable s1 s2 s1.length s2.length

/-- Model of `_rouge_l`: LCS length over reference length. -/
def rouge_l (gen_tokens ref_tokens : List String) : ℚ :=
  if ref_tokens.length = 0 then 0
  else (lcs gen_tokens ref_tokens : ℚ) / (ref_tokens.length : ℚ)

/-- Triple returned by `compute_rouge`. -/
structure RougeScores where
  rouge1 : ℚ
  rouge2 : ℚ
  rougeL : ℚ
deriving Repr

/-- Model of `compute_rouge`: ROUGE-1, ROUGE-2 and ROUGE-L on the 0-100
scale, rounded to 2 decimals. -/
def compute_rouge (tok : TokEnv) (generated reference : String) : RougeScores :=
  let gen_tokens := tok.wt (pyLower generated)
  let ref_tokens := tok.wt (pyLower reference)
  { rouge1 := pyRound (rouge_n gen_tokens ref_tokens 1 * 100) 2
    rouge2 := pyRound (rouge_n gen_tokens ref_tokens 2 * 100) 2
    rougeL := pyRound (rouge_l gen_tokens ref_tokens * 100) 2 }

/-- Stopword-filtered token set of one side of `compute_word_overlap`. -/
def overlapSet (tok : TokEnv) (text : String) : Finset String :=
  ((tok.wt (pyLower text)).filter (fun w => !tok.stop w)).toFinset

/-- Model of `compute_word_overlap`: Jaccard similarity of the
stopword-filtered token sets, rounded to 4 decimals; 0 if either set is
empty. -/
def compute_word_overlap (tok : TokEnv) (generated reference : String) : ℚ :=
  if (overlapSet tok generated).card = 0 ∨ (overlapSet tok reference).card = 0 then 0
  else if 0 < ((overlapSet tok generated) ∪ (overlapSet tok reference)).card then
    pyRound ((((overlapSet tok generated) ∩ (overlapSet tok reference)).card : ℚ) /
      (((overlapSet tok generated) ∪ (overlapSet tok reference)).card : ℚ)) 4
  else 0

/-- Model of `_compute_quality_score`: weighted sum of the normalized BLEU,
ROUGE-L and semantic scores plus a flat 0.1 bonus when no hallucination was
detected, rounded to 4 decimals. -/
def compute_quality_score (bleu rougeL semantic : ℚ) (detected : Bool) : ℚ :=
  pyRound (3/10 * (bleu / 100) + 3/10 * (rougeL / 100) + 3/10 * semantic +
    (if detected then 0 else 1/10)) 4

/-- Model of `evaluate_message`: the result dict with keys `bleu`, `rouge`,
`semantic_similarity`, `hallucination` and `quality_score`. -/
def evaluate_message (tok : TokEnv) (generated reference diff : String) :
    List (String × PyVal) :=
  let bleu := compute_bleu tok generated reference
  let rouge := compute_rouge tok generated reference
  let semantic := compute_word_overlap tok generated reference
  let hall := detect_hallucination tok (1/10) generated diff
  let quality := compute_quality_score bleu rouge.rougeL semantic hall.detected
  [("bleu", .float bleu),
   ("rouge", .dict [("rouge1", .float rouge.rouge1),
                    ("rouge2", .float rouge.rouge2),
                    ("rougeL", .float rouge.rougeL)]),
   ("semantic_similarity", .float semantic),
   ("hallucination", .dict [("detected", .bool hall.detected),
                            ("hallucination_rate", .float hall.hallucination_rate),
                            ("ungrounded_tokens", .list (hall.ungrounded_tokens.map .str)),
                            ("total_tokens_checked", .int (hall.total_tokens_checked : ℤ))]),
   ("quality_score", .float quality)]

/-! Safety layer (`src/Phase3_Submission/code/api/safety.py`). -/

/-- Model of `SafetyGuardrails.assess_hallucination_severity`. The
parameters are dynamic values because `ValidatorAgent.execute` calls this
function with its two arguments swapped (a bool where the float is expected
and vice versa); Python truthiness decides the first branch and numeric
coercion the comparisons. -/
def assess_hallucination_severity (hallucination_rate hallucination_detected : PyVal) :
    String :=
  if !pyTruthy hallucination_detected then "NONE"
  else if pyToQ hallucination_rate < 10/100 then "LOW"
  else if pyToQ hallucination_rate < 20/100 then "MEDIUM"
  else if pyToQ hallucination_rate < 35/100 then "HIGH"
  else "CRITICAL"

/-- Rank of a severity level in the ordered enumeration
NONE < LOW < MEDIUM < HIGH < CRITICAL. -/
def severityRank : String → ℕ
  | "NONE" => 0
  | "LOW" => 1
  | "MEDIUM" => 2
  | "HIGH" => 3
  | "CRITICAL" => 4
  | _ => 0

/-- Model of `SafetyGuardrails.get_confidence_level`. -/
def get_confidence_level (quality_score : ℚ) (hallucination_severity : String) :
    String :=
  if hallucination_severity = "CRITICAL" then "VERY_LOW"
  else if hallucination_severity = "HIGH" then
    (if quality_score < 30/100 then "VERY_LOW" else "LOW")
  else if hallucination_severity = "MEDIUM" then
    (if 45/100 ≤ quality_score then "MEDIUM"
     else if 30/100 ≤ quality_score then "LOW"
     else "VERY_LOW")
  else
    (if 50/100 ≤ quality_score then "HIGH"
     else if 35/100 ≤ quality_score then "MEDIUM"
     else if 20/100 ≤ quality_score then "LOW"
     else "VERY_LOW")

/-- Warning emitted by the human-oversight branch of
`generate_safety_warnings`. -/
def oversightWarning : String :=
  "⚠️ HUMAN OVERSIGHT REQUIRED: This message should not be used " ++
  "without thorough manual review by a developer familiar with the changes."

/-- Warning emitted by the lighter review branch of
`generate_safety_warnings`. -/
def reviewWarning : String :=
  "ℹ️ Human review recommended: While quality is acceptable, " ++
  "always verify AI-generated commit messages before pushing."

/-- Model of `SafetyGuardrails.generate_safety_warnings`. The
`hallucination_details` dict is represented by its `ungrounded_tokens`
entry, the only key the function reads. -/
def generate_safety_warnings (hallucination_severity : String)
    (ungrounded_tokens : List String) (quality_score : ℚ) : List String :=
  let w1 : List String :=
    if hallucination_severity = "CRITICAL" then
      ["🚨 CRITICAL: Very high hallucination rate (>35%). " ++
       "Generated message contains significant ungrounded information. " ++
       "DO NOT use without thorough manual review."]
    else if hallucination_severity = "HIGH" then
      ["⚠️ HIGH: High hallucination rate (20-35%). " ++
       "Generated message may contain invented function/variable names. " ++
       "Manual verification strongly recommended."]
    else if hallucination_severity = "MEDIUM" then
      ["⚠️ MEDIUM: Moderate hallucination detected (10-20%). " ++
       "Verify all mentioned functions and files exist in the diff."]
    else if hallucination_severity = "LOW" then
      ["ℹ️ LOW: Minor hallucination detected (<10%). " ++
       "Quick review recommended before committing."]
    else []
  let w2 : List String :=
    if quality_score < 20/100 then
      ["⚠️ Very low quality score (<0.20). " ++
       "Generated message may not accurately reflect changes. " ++
       "Consider regenerating or writing manually."]
    else if quality_score < 35/100 then
      ["ℹ️ Low quality score (0.20-0.35). " ++
       "Review carefully and consider improvements."]
    else []
  let w3 : List String :=
    if ungrounded_tokens ≠ [] then
      (if 0 < ungrounded_tokens.length then
        ["⚠️ Ungrounded tokens detected: " ++
         String.intercalate ", " (ungrounded_tokens.take 5) ++ "... (" ++
         toString ungrounded_tokens.length ++
         " total). Verify these appear in your diff."]
      else [])
    else []
  let w4 : List String :=
    if hallucination_severity = "HIGH" ∨ hallucination_severity = "CRITICAL" ∨
        quality_score < 25/100 then
      [oversightWarning]
    else
      [reviewWarning]
  w1 ++ w2 ++ w3 ++ w4

/-- Whitespace characters removed by Python's `str.strip()`. -/
def pyWS (c : Char) : Bool :=
  c = ' ' ∨ c = '\t' ∨ c = '\n' ∨ c = '\r' ∨ c = Char.ofNat 11 ∨ c = Char.ofNat 12

/-- Model of `str.strip()`: drop whitespace from both ends. -/
def pyStrip (l : List Char) : List Char :=
  (((l.dropWhile pyWS).reverse.dropWhile pyWS)).reverse

/-- The backtick character (modelled via its code point). -/
def backtickChar : Char := Char.ofNat 96

/-- The apostrophe character (modelled via its code point). -/
def apostropheChar : Char := Char.ofNat 39

/-- Model of `str.replace` for the backtick-to-quote substitution of
`sanitize_output`. -/
def replaceBackticks (l : List Char) : List Char :=
  l.map (fun c => if c = backtickChar then apostropheChar else c)

/-- Model of `re.sub(r'\n{3,}', '\n\n', s)`: every maximal run of three or
more newlines becomes exactly two. -/
def collapseNewlines : List Char → List Char
  | [] => []
  | c :: cs =>
    if c = '\n' then
      (if 3 ≤ ((c :: cs).takeWhile (fun d => d = '\n')).length
        then ['\n', '\n']
        else (c :: cs).takeWhile (fun d => d = '\n')) ++
      collapseNewlines ((c :: cs).dropWhile (fun d => d = '\n'))
    else c :: collapseNewlines cs
termination_by l => l.length
decreasing_by
  · simp only [List.dropWhile_cons]
    split
    · have := (List.dropWhile_suffix (l := cs) (fun d => d = '\n')).sublist.length_le
      simp only [List.length_cons]
      omega
    · simp_all
  · simp only [List.length_cons]; omega

/-- Truncation marker appended by `sanitize_output`. -/
def truncationMarker : List Char := "... (truncated)".data

/-- Maximum sanitized message length `MAX_MESSAGE_LENGTH`. -/
def MAX_MESSAGE_LENGTH : ℕ := 500

/-- Model of `SafetyGuardrails.sanitize_output` on character lists: strip,
replace backticks by quotes, collapse long newline runs, hard-truncate with
an explicit marker. -/
def sanitize_output (commit_message : List Char) : List Char :=
  let s1 := pyStrip commit_message
  let s2 := replaceBackticks s1
  let s3 := collapseNewlines s2
  if MAX_MESSAGE_LENGTH < s3.length then s3.take MAX_MESSAGE_LENGTH ++ truncationMarker
  else s3

/-- Decidable absence of three consecutive newlines: every window of three
consecutive characters contains a non-newline. -/
def noTripleNewline : List Char → Bool
  | c1 :: c2 :: c3 :: rest =>
    !(c1 = '\n' && c2 = '\n' && c3 = '\n') && noTripleNewline (c2 :: c3 :: rest)
  | _ => true

/-! Input validation (`SafetyGuardrails.validate_input` and its helper
checks). The sensitive-data regular expressions are external library
behaviour (`re.search`), abstracted as a list of predicates scanned in
order; the human-readable error strings are abstracted to the structured
`ValidationReason` tags they carry. -/

/-- Structured outcome of one `validate_input` call. -/
inductive ValidationReason where
  | rateLimit
  | emptyDiff
  | sizeLimit
  | lineCount
  | formatMarkers
  | sensitiveData
  | passed
deriving Repr, DecidableEq

/-- Configured ceiling `MAX_DIFF_SIZE_KB`. -/
def MAX_DIFF_SIZE_KB : ℕ := 100

/-- Configured ceiling `MAX_DIFF_LINES`. -/
def MAX_DIFF_LINES : ℕ := 1000

/-- Configured cap `RATE_LIMIT_RPM`. -/
def RATE_LIMIT_RPM : ℕ := 60

/-- Model of `SafetyGuardrails._check_rate_limit` for one client identity:
timestamps older than 60 seconds are evicted, then the request is rejected
if the remaining count is at or over the cap, and otherwise admitted and
recorded. Returns (is_allowed, updated timestamp store). -/
def check_rate_limit (store : List ℚ) (now : ℚ) : Bool × List ℚ :=
  let kept := store.filter (fun t => now - t < 60)
  if RATE_LIMIT_RPM ≤ kept.length then (false, kept)
  else (true, kept ++ [now])

/-- Empty-content check of `validate_input` (`not diff or diff.strip() == ""`). -/
def emptyDiffCheck (diff : String) : Bool :=
  pyStrip diff.data = []

/-- Size-ceiling check of `validate_input`: UTF-8 size in KB above
`MAX_DIFF_SIZE_KB` (`len(diff.encode('utf-8')) / 1024 > 100` exactly). -/
def sizeLimitCheck (diff : String) : Bool :=
  decide ((MAX_DIFF_SIZE_KB : ℚ) < (diff.utf8ByteSize : ℚ) / 1024)

/-- Line-count check of `validate_input`. -/
def lineCountCheck (diff : String) : Bool :=
  MAX_DIFF_LINES < (pySplitLines diff).length

/-- Diff-marker sniff of `validate_input`: some of the first 20 lines must
carry a recognizable diff marker. -/
def hasDiffMarkers (diff : String) : Bool :=
  ((pySplitLines diff).take 20).any (fun l =>
    pyStartsWith l "diff --git" || pyStartsWith l "@@" || pyStartsWith l "---" ||
    pyStartsWith l "+++" || pyStartsWith l "+" || pyStartsWith l "-")

/-- Model of `SafetyGuardrails._check_sensitive_data`: the compiled regex
patterns are abstracted as predicates, tried in order. -/
def check_sensitive_data (patterns : List (String → Bool)) (diff : String) : Bool :=
  patterns.any (fun p => p diff)

/-- Model of `SafetyGuardrails.validate_input`: the ordered, short-circuit
sequence of checks. Returns (is_valid, structured reason, updated rate
store). -/
def validate_input (patterns : List (String → Bool)) (diff : String)
    (store : List ℚ) (now : ℚ) : Bool × ValidationReason × List ℚ :=
  let rate := check_rate_limit store now
  if !rate.1 then (false, .rateLimit, rate.2)
  else if pyStrip diff.data = [] then (false, .emptyDiff, rate.2)
  else if decide ((MAX_DIFF_SIZE_KB : ℚ) < (diff.utf8ByteSize : ℚ) / 1024) then
    (false, .sizeLimit, rate.2)
  else if MAX_DIFF_LINES < (pySplitLines diff).length then (false, .lineCount, rate.2)
  else if !((pySplitLines diff).take 20).any (fun l =>
      pyStartsWith l "diff --git" || pyStartsWith l "@@" || pyStartsWith l "---" ||
      pyStartsWith l "+++" || pyStartsWith l "+" || pyStartsWith l "-") then
    (false, .formatMarkers, rate.2)
  else if patterns.any (fun p => p diff) then (false, .sensitiveData, rate.2)
  else (true, .passed, rate.2)

/-! Multi-agent workflow (`src/Phase3_Submission/code/api/multi_agent.py`). -/

/-- Audit record logged by `GovernanceController.log_agent_decision`,
reduced to the identity fields the claims are about. -/
structure AgentDecision where
  agent_name : String
  action : String
deriving Repr, DecidableEq

/-- Decision appended by `GeneratorAgent.execute`. -/
def generatorDecision : AgentDecision :=
  { agent_name := "GeneratorAgent", action := "generate_initial_message" }

/-- Decision appended by `ValidatorAgent.execute`. -/
def validatorDecision : AgentDecision :=
  { agent_name := "ValidatorAgent", action := "validate_message" }

/-- Decision appended by `RefinerAgent.execute`. -/
def refinerDecision : AgentDecision :=
  { agent_name := "RefinerAgent", action := "refine_message" }

/-- Behaviour of the three agents as seen by the orchestrator. Each agent
may fail (`ValueError` on a governance check, generation failure), modelled
by `Except`. The message and verdict types are abstract: the loop is
specified for any generator behaviour. -/
structure AgentBehaviour (μ ν : Type) where
  generate : Except String μ
  validate : μ → Except String ν
  isValid : ν → Bool
  refine : μ → ν → Except String μ

/-- Final state of one orchestrated request: last message, its verdict,
the audit trail and the number of validation calls performed. -/
structure LoopResult (μ ν : Type) where
  message : μ
  verdict : ν
  decisions : List AgentDecision
  validationCalls : ℕ

/-- The `while iteration < self.max_iterations` loop of
`generate_commit_message_multi_agent`: validate, break when valid,
otherwise refine and continue. Returns the message after the loop, the
accumulated audit trail and the number of validation calls made inside the
loop. -/
def agentLoop {μ ν : Type} (b : AgentBehaviour μ ν) :
    μ → List AgentDecision → ℕ → Except String (μ × List AgentDecision × ℕ)
  | msg, trail, 0 => .ok (msg, trail, 0)
  | msg, trail, fuel + 1 =>
    match b.validate msg with
    | .error e => .error e
    | .ok v =>
      if b.isValid v then .ok (msg, trail ++ [validatorDecision], 1)
      else
        match b.refine msg v with
        | .error e => .error e
        | .ok msg2 =>
          match agentLoop b msg2 (trail ++ [validatorDecision] ++ [refinerDecision]) fuel with
          | .error e => .error e
          | .ok (m, t, c) => .ok (m, t, c + 1)

/-- Default `max_iterations` of `MultiAgentOrchestrator`. -/
def defaultMaxIterations : ℕ := 3

/-- Model of `MultiAgentOrchestrator.generate_commit_message_multi_agent`:
generate once, run the bounded validate/refine loop, then perform the final
validation and return normally with the last message and its verdict. -/
def orchestrate {μ ν : Type} (b : AgentBehaviour μ ν) (maxIterations : ℕ) :
    Except String (LoopResult μ ν) :=
  match b.generate with
  | .error e => .error e
  | .ok m0 =>
    match agentLoop b m0 [generatorDecision] maxIterations with
    | .error e => .error e
    | .ok (m, trail, calls) =>
      match b.validate m with
      | .error e => .error e
      | .ok v =>
        .ok { message := m, verdict := v,
              decisions := trail ++ [validatorDecision], validationCalls := calls + 1 }

/-- Fallback metrics dict built inline by `ValidatorAgent.execute` when no
reference message is provided. -/
def fallbackMetrics : List (String × PyVal) :=
  [("bleu", .float 0),
   ("rouge_l", .float 0),
   ("semantic_similarity", .float 0),
   ("hallucination_detected", .bool false),
   ("ungrounded_ratio", .float 0)]

/-- Verdict fields computed by `ValidatorAgent.execute` that feed its
validity decision. -/
structure ValidatorVerdict where
  is_valid : Bool
  severity : String
  confidence : String
  quality_score : ℚ
deriving Repr

/-- Model of the decision core of `ValidatorAgent.execute`: it calls
`evaluate_message(diff, message, reference_message)` (arguments in that
order), reads the keys `hallucination_detected` and `ungrounded_ratio`
with defaults `False` and `0.0`, calls
`assess_hallucination_severity(hallucination_detected, ungrounded_ratio)`
(again in that order), and combines severity, confidence and quality into
`is_valid`. -/
def validator_execute (tok : TokEnv) (message diff reference_message : String) :
    ValidatorVerdict :=
  let metrics :=
    if reference_message ≠ "" then evaluate_message tok diff message reference_message
    else fallbackMetrics
  let hallucination_detected := dictGet metrics "hallucination_detected" (.bool false)
  let ungrounded_ratio := dictGet metrics "ungrounded_ratio" (.float 0)
  let severity := assess_hallucination_severity hallucination_detected ungrounded_ratio
  let quality_score := pyToQ (dictGet metrics "quality_score" (.float (1/2)))
  let confidence := get_confidence_level quality_score severity
  let is_valid :=
    (severity = "NONE" ∨ severity = "LOW") ∧
    (confidence = "MEDIUM" ∨ confidence = "HIGH") ∧
    3/10 ≤ quality_score
  { is_valid := decide is_valid
    severity := severity
    confidence := confidence
    quality_score := quality_score }

/-! Concrete environments and agent behaviours used to evaluate the
definitions on explicit inputs. -/

/-- Tokenizer environment mapping the message `msg` to three meaningful
tokens of which one (`ccc`) is not attested in the two diff tokens. -/
def tokThreeTokens : TokEnv :=
  { wt := fun s => if s = "msg" then ["aaa", "bbb", "ccc"] else ["aaa", "bbb"],
    stop := fun _ => false, fexp := fun _ => 1, flog := fun _ => 0 }

/-- Tokenizer environment producing a single-token stream. -/
def tokSingleToken : TokEnv :=
  { wt := fun _ => ["fix"], stop := fun _ => false,
    fexp := fun _ => 1, flog := fun _ => 0 }

/-- Tokenizer environment producing a fixed two-token stream. -/
def tokTwoTokens : TokEnv :=
  { wt := fun _ => ["aaa", "bbb"], stop := fun _ => false,
    fexp := fun _ => 1, flog := fun _ => 0 }

/-- Tokenizer environment with a two-token candidate and a six-token
reference sharing exactly one token (Jaccard overlap 1/7). -/
def tokJaccardSeventh : TokEnv :=
  { wt := fun s =>
      if s = "g" then ["t01", "t02"]
      else if s = "r" then ["t01", "t03", "t04", "t05", "t06", "t07"]
      else ["t01", "t02"],
    stop := fun _ => false, fexp := fun _ => 1, flog := fun _ => 0 }

/-- Agent behaviour whose validator never accepts: the generator yields 0,
each refinement increments the message, every call succeeds. -/
def neverValidBehaviour : AgentBehaviour ℕ ℕ :=
  { generate := .ok 0
    validate := fun m => .ok m
    isValid := fun _ => false
    refine := fun m _ => .ok (m + 1) }

/-! Basic lemmas about the rounding model. -/

theorem roundHalfEven_floor_le (y : ℚ) : ⌊y⌋ ≤ roundHalfEven y := by
  unfold roundHalfEven
  split
  · omega
  · split
    · omega
    · split <;> omega

theorem roundHalfEven_le_of_le (y : ℚ) (k : ℤ) (h : y ≤ (k : ℚ)) :
    roundHalfEven y ≤ k := by
  have hfk : ⌊y⌋ ≤ k := by
    have h2 := Int.floor_le_floor (α := ℚ) h
    simpa using h2
  have hstep : 1/2 ≤ y - (⌊y⌋ : ℚ) → ⌊y⌋ + 1 ≤ k := by
    intro hh
    have hlt : (⌊y⌋ : ℚ) < y := by
      have := Int.floor_le y
      linarith
    have hq : (⌊y⌋ : ℚ) < (k : ℚ) := lt_of_lt_of_le hlt h
    have : ⌊y⌋ < k := by exact_mod_cast hq
    omega
  unfold roundHalfEven
  split
  · exact hfk
  · rename_i h1
    push_neg at h1
    split
    · exact hstep (by linarith)
    · split
      · exact hfk
      · exact hstep (by linarith)

theorem pyRound_zero (n : ℕ) : pyRound 0 n = 0 := by
  simp [pyRound, roundHalfEven]

theorem pyRound_nonneg (q : ℚ) (n : ℕ) (h : 0 ≤ q) : 0 ≤ pyRound q n := by
  unfold pyRound
  have hm : (0 : ℚ) < (10 : ℚ) ^ n := by positivity
  have hy : 0 ≤ q * (10 : ℚ) ^ n := by positivity
  have hf : (0 : ℤ) ≤ ⌊q * (10 : ℚ) ^ n⌋ := Int.floor_nonneg.mpr hy
  have hr := roundHalfEven_floor_le (q * (10 : ℚ) ^ n)
  apply div_nonneg _ (le_of_lt hm)
  exact_mod_cast le_trans hf hr

theorem pyRound_le_of_le (q : ℚ) (n : ℕ) (k : ℤ) (h : q * (10 : ℚ) ^ n ≤ (k : ℚ)) :
    pyRound q n ≤ (k : ℚ) / (10 : ℚ) ^ n := by
  unfold pyRound
  have hm : (0 : ℚ) < (10 : ℚ) ^ n := by positivity
  have hr : ((roundHalfEven (q * (10 : ℚ) ^ n) : ℤ) : ℚ) ≤ (k : ℚ) := by
    exact_mod_cast roundHalfEven_le_of_le (q * (10 : ℚ) ^ n) k h
  gcongr


/-- Convenient bound: rounding keeps a value between 0 and an integer bound
expressible at the rounding precision. -/
theorem pyRound_bounds (q : ℚ) (n : ℕ) (c : ℚ) (k : ℤ) (h0 : 0 ≤ q) (h1 : q ≤ c)
    (hk : (k : ℚ) = c * (10 : ℚ) ^ n) : 0 ≤ pyRound q n ∧ pyRound q n ≤ c := by
  have hm : (0 : ℚ) < (10 : ℚ) ^ n := by positivity
  refine ⟨pyRound_nonneg q n h0, ?_⟩
  have h2 : q * (10 : ℚ) ^ n ≤ (k : ℚ) := by
    rw [hk]
    exact mul_le_mul_of_nonneg_right h1 (le_of_lt hm)
  have h3 := pyRound_le_of_le q n k h2
  calc pyRound q n ≤ (k : ℚ) / (10 : ℚ) ^ n := h3
    _ = c := by rw [hk]; field_simp

theorem assess_float_true (r : ℚ) :
    assess_hallucination_severity (.float r) (.bool true) =
      if r < 10/100 then "LOW"
      else if r < 20/100 then "MEDIUM"
      else if r < 35/100 then "HIGH"
      else "CRITICAL" := by
  simp [assess_hallucination_severity, pyTruthy, pyToQ]

/-- C2: `assess_hallucination_severity` is total over every rate in [0,1]
and boolean flag; it returns NONE when not detected, otherwise bands the
rate at 0.10 / 0.20 / 0.35 into LOW / MEDIUM / HIGH / CRITICAL, and with
the flag set the level is monotonic non-decreasing in the rate, with
rate 0.05 giving LOW, 0.15 MEDIUM, 0.28 HIGH and 0.40 CRITICAL. -/
theorem claim_C2 (rate : ℚ) (detected : Bool) (h0 : 0 ≤ rate) (h1 : rate ≤ 1) :
    (detected = false →
      assess_hallucination_severity (.float rate) (.bool detected) = "NONE") ∧
    (detected = true →
      (rate < 10/100 →
        assess_hallucination_severity (.float rate) (.bool detected) = "LOW") ∧
      (10/100 ≤ rate → rate < 20/100 →
        assess_hallucination_severity (.float rate) (.bool detected) = "MEDIUM") ∧
      (20/100 ≤ rate → rate < 35/100 →
        assess_hallucination_severity (.float rate) (.bool detected) = "HIGH") ∧
      (35/100 ≤ rate →
        assess_hallucination_severity (.float rate) (.bool detected) = "CRITICAL")) ∧
    (∀ rate2 : ℚ, rate ≤ rate2 →
      severityRank (assess_hallucination_severity (.float rate) (.bool detected)) ≤
      severityRank (assess_hallucination_severity (.float rate2) (.bool detected))) ∧
    assess_hallucination_severity (.float (5/100)) (.bool true) = "LOW" ∧
    assess_hallucination_severity (.float (15/100)) (.bool true) = "MEDIUM" ∧
    assess_hallucination_severity (.float (28/100)) (.bool true) = "HIGH" ∧
    assess_hallucination_severity (.float (40/100)) (.bool true) = "CRITICAL" := by
  refine ⟨?_, ?_, ?_, ?_, ?_, ?_, ?_⟩
  · intro hd; subst hd
    simp [assess_hallucination_severity, pyTruthy]
  · intro hd; subst hd
    refine ⟨?_, ?_, ?_, ?_⟩
    · intro h; rw [assess_float_true, if_pos h]
    · intro h2 h3
      rw [assess_float_true, if_neg (by linarith), if_pos h3]
    · intro h2 h3
      rw [assess_float_true, if_neg (by linarith), if_neg (by linarith), if_pos h3]
    · intro h2
      rw [assess_float_true, if_neg (by linarith), if_neg (by linarith),
        if_neg (by linarith)]
  · intro rate2 hle
    cases detected with
    | false => simp [assess_hallucination_severity, pyTruthy]
    | true =>
      rw [assess_float_true, assess_float_true]
      split_ifs <;> first | decide | linarith
  · rw [assess_float_true, if_pos (by norm_num)]
  · rw [assess_float_true, if_neg (by norm_num), if_pos (by norm_num)]
  · rw [assess_float_true, if_neg (by norm_num), if_neg (by norm_num),
      if_pos (by norm_num)]
  · rw [assess_float_true, if_neg (by norm_num), if_neg (by norm_num),
      if_neg (by norm_num)]

/-- C2 witness: the theorem applied at rate 0.05 with the flag set. -/
theorem claim_C2_witness :
    (0 : ℚ) ≤ 5/100 ∧ (5/100 : ℚ) ≤ 1 ∧
    assess_hallucination_severity (.float (5/100)) (.bool true) = "LOW" :=
  ⟨by norm_num, by norm_num,
    (claim_C2 (5/100) true (by norm_num) (by norm_num)).2.2.2.1⟩

/-- C3: `get_confidence_level` maps CRITICAL severity to VERY_LOW for every
quality in [0,1]; HIGH severity to LOW when quality ≥ 0.30 and VERY_LOW
otherwise; MEDIUM severity through the bands [≥0.45, ≥0.30, else] to
[MEDIUM, LOW, VERY_LOW]; and NONE or LOW severity through the bands
[≥0.50, ≥0.35, ≥0.20, else] to [HIGH, MEDIUM, LOW, VERY_LOW]. -/
theorem claim_C3 (q : ℚ) (h0 : 0 ≤ q) (h1 : q ≤ 1) :
    get_confidence_level q "CRITICAL" = "VERY_LOW" ∧
    (30/100 ≤ q → get_confidence_level q "HIGH" = "LOW") ∧
    (q < 30/100 → get_confidence_level q "HIGH" = "VERY_LOW") ∧
    (45/100 ≤ q → get_confidence_level q "MEDIUM" = "MEDIUM") ∧
    (30/100 ≤ q → q < 45/100 → get_confidence_level q "MEDIUM" = "LOW") ∧
    (q < 30/100 → get_confidence_level q "MEDIUM" = "VERY_LOW") ∧
    (∀ s : String, s = "NONE" ∨ s = "LOW" →
      (50/100 ≤ q → get_confidence_level q s = "HIGH") ∧
      (35/100 ≤ q → q < 50/100 → get_confidence_level q s = "MEDIUM") ∧
      (20/100 ≤ q → q < 35/100 → get_confidence_level q s = "LOW") ∧
      (q < 20/100 → get_confidence_level q s = "VERY_LOW")) := by
  have hhigh : get_confidence_level q "HIGH" =
      if q < 30/100 then "VERY_LOW" else "LOW" := by
    simp [get_confidence_level]
  have hmed : get_confidence_level q "MEDIUM" =
      if 45/100 ≤ q then "MEDIUM" else if 30/100 ≤ q then "LOW" else "VERY_LOW" := by
    simp [get_confidence_level]
  have hlow : ∀ s : String, s ≠ "CRITICAL" → s ≠ "HIGH" → s ≠ "MEDIUM" →
      get_confidence_level q s =
        (if 50/100 ≤ q then "HIGH"
         else if 35/100 ≤ q then "MEDIUM"
         else if 20/100 ≤ q then "LOW"
         else "VERY_LOW") := by
    intro s h1 h2 h3
    simp [get_confidence_level, h1, h2, h3]
  refine ⟨?_, ?_, ?_, ?_, ?_, ?_, ?_⟩
  · simp [get_confidence_level]
  · intro h
    rw [hhigh, if_neg (by linarith)]
  · intro h
    rw [hhigh, if_pos h]
  · intro h
    rw [hmed, if_pos h]
  · intro h2 h3
    rw [hmed, if_neg (by linarith), if_pos h2]
  · intro h
    rw [hmed, if_neg (by linarith), if_neg (by linarith)]
  · intro s hs
    have hs1 : s ≠ "CRITICAL" := by rcases hs with h | h <;> subst h <;> decide
    have hs2 : s ≠ "HIGH" := by rcases hs with h | h <;> subst h <;> decide
    have hs3 : s ≠ "MEDIUM" := by rcases hs with h | h <;> subst h <;> decide
    refine ⟨?_, ?_, ?_, ?_⟩
    · intro h
      rw [hlow s hs1 hs2 hs3, if_pos h]
    · intro h2 h3
      rw [hlow s hs1 hs2 hs3, if_neg (by linarith), if_pos h2]
    · intro h2 h3
      rw [hlow s hs1 hs2 hs3, if_neg (by linarith), if_neg (by linarith), if_pos h2]
    · intro h
      rw [hlow s hs1 hs2 hs3, if_neg (by linarith), if_neg (by linarith),
        if_neg (by linarith)]

/-- C3 witness: the theorem applied at quality 0.75 with CRITICAL severity. -/
theorem claim_C3_witness :
    (0 : ℚ) ≤ 75/100 ∧ (75/100 : ℚ) ≤ 1 ∧
    get_confidence_level (75/100) "CRITICAL" = "VERY_LOW" :=
  ⟨by norm_num, by norm_num, (claim_C3 (75/100) (by norm_num) (by norm_num)).1⟩

theorem evaluate_message_no_detected_key (tok : TokEnv) (g r d : String) :
    (evaluate_message tok g r d).find?
      (fun kv => kv.1 = "hallucination_detected") = none := by
  simp [evaluate_message, List.find?]

theorem evaluate_message_no_ratio_key (tok : TokEnv) (g r d : String) :
    (evaluate_message tok g r d).find?
      (fun kv => kv.1 = "ungrounded_ratio") = none := by
  simp [evaluate_message, List.find?]

/-- C5: the severity that `ValidatorAgent.execute` feeds into its validity
decision is always the string NONE — the keys `hallucination_detected` and
`ungrounded_ratio` it reads are never present in the evaluator's result, so
the defaults `False` and `0.0` flow into the (argument-swapped) call of
`assess_hallucination_severity` — and `is_valid` therefore reduces to
(confidence in {MEDIUM, HIGH} and quality score ≥ 0.3). -/
theorem claim_C5 (tok : TokEnv) (message diff reference_message : String) :
    (validator_execute tok message diff reference_message).severity = "NONE" ∧
    (evaluate_message tok diff message reference_message).find?
      (fun kv => kv.1 = "hallucination_detected") = none ∧
    (evaluate_message tok diff message reference_message).find?
      (fun kv => kv.1 = "ungrounded_ratio") = none ∧
    ((validator_execute tok message diff reference_message).is_valid = true ↔
      (((validator_execute tok message diff reference_message).confidence = "MEDIUM" ∨
        (validator_execute tok message diff reference_message).confidence = "HIGH") ∧
       3/10 ≤ (validator_execute tok message diff reference_message).quality_score)) := by
  have hsev : (validator_execute tok message diff reference_message).severity =
      "NONE" := by
    unfold validator_execute
    split
    · simp only [dictGet, evaluate_message_no_detected_key,
        evaluate_message_no_ratio_key]
      simp [assess_hallucination_severity, pyTruthy]
    · simp [dictGet, fallbackMetrics, List.find?,
        assess_hallucination_severity, pyTruthy]
  refine ⟨hsev, evaluate_message_no_detected_key tok diff message reference_message,
    evaluate_message_no_ratio_key tok diff message reference_message, ?_⟩
  have hv : (validator_execute tok message diff reference_message).is_valid = true ↔
      (((validator_execute tok message diff reference_message).severity = "NONE" ∨
        (validator_execute tok message diff reference_message).severity = "LOW") ∧
       ((validator_execute tok message diff reference_message).confidence = "MEDIUM" ∨
        (validator_execute tok message diff reference_message).confidence = "HIGH") ∧
       3/10 ≤ (validator_execute tok message diff reference_message).quality_score) := by
    unfold validator_execute
    simp only [decide_eq_true_eq]
  rw [hv, hsev]
  simp

/-- C1 (amended): for every message and diff, the report of
`detect_hallucination` has `rate = round(len(ungroundedTokens) /
totalTokensChecked, 4)` when `totalTokensChecked > 0` (the code rounds the
stored rate to 4 decimal places, so exact equality with the quotient fails
in general), `rate = 0` with `detected = false` when `totalTokensChecked =
0`, and `detected` equals (unrounded rate > threshold) always. -/
theorem claim_C1 (tok : TokEnv) (threshold : ℚ) (message diff : String)
    (hthr : 0 ≤ threshold) :
    ((detect_hallucination tok threshold message diff).total_tokens_checked = 0 →
      (detect_hallucination tok threshold message diff).hallucination_rate = 0 ∧
      (detect_hallucination tok threshold message diff).detected = false) ∧
    (0 < (detect_hallucination tok threshold message diff).total_tokens_checked →
      (detect_hallucination tok threshold message diff).hallucination_rate =
        pyRound
          (((detect_hallucination tok threshold message diff).ungrounded_tokens.length : ℚ) /
           ((detect_hallucination tok threshold message diff).total_tokens_checked : ℚ)) 4 ∧
      ((detect_hallucination tok threshold message diff).detected = true ↔
        threshold <
          ((detect_hallucination tok threshold message diff).ungrounded_tokens.length : ℚ) /
          ((detect_hallucination tok threshold message diff).total_tokens_checked : ℚ))) := by
  simp only [detect_hallucination]
  constructor
  · intro h0
    rw [rawHallucinationRate, if_pos h0]
    exact ⟨pyRound_zero 4, by simpa using not_lt_of_le hthr⟩
  · intro hpos
    have hne : (checkedTokens tok message).length ≠ 0 := by omega
    rw [rawHallucinationRate, if_neg hne]
    exact ⟨rfl, by simp⟩

/-- C1 witness: the theorem applied to a concrete environment where three
tokens are checked and one is ungrounded. -/
theorem claim_C1_witness :
    0 < (detect_hallucination tokThreeTokens (1/10) "MSG" "x").total_tokens_checked ∧
    (detect_hallucination tokThreeTokens (1/10) "MSG" "x").hallucination_rate =
      pyRound
        (((detect_hallucination tokThreeTokens (1/10) "MSG" "x").ungrounded_tokens.length : ℚ) /
         ((detect_hallucination tokThreeTokens (1/10) "MSG" "x").total_tokens_checked : ℚ)) 4 :=
  ⟨by decide,
    ((claim_C1 tokThreeTokens (1/10) "MSG" "x" (by norm_num)).2 (by decide)).1⟩

/-- C1 counterexample: with three checked tokens of which one is
ungrounded, the stored rate is 0.3333, not the exact quotient 1/3 that the
claim asserts. -/
theorem claim_C1_counterexample :
    (detect_hallucination tokThreeTokens (1/10) "MSG" "x").total_tokens_checked = 3 ∧
    (detect_hallucination tokThreeTokens (1/10) "MSG" "x").ungrounded_tokens.length = 1 ∧
    (detect_hallucination tokThreeTokens (1/10) "MSG" "x").hallucination_rate =
      3333/10000 ∧
    (detect_hallucination tokThreeTokens (1/10) "MSG" "x").hallucination_rate ≠
      ((detect_hallucination tokThreeTokens (1/10) "MSG" "x").ungrounded_tokens.length : ℚ) /
      ((detect_hallucination tokThreeTokens (1/10) "MSG" "x").total_tokens_checked : ℚ) := by
  have h1 : (checkedTokens tokThreeTokens "MSG").length = 3 := by decide
  have h2 : (ungroundedTokens tokThreeTokens "MSG" "x").length = 1 := by decide
  have hraw : rawHallucinationRate tokThreeTokens "MSG" "x" = 1/3 := by
    rw [rawHallucinationRate, h1, h2]
    norm_num
  have hfloor : ⌊(1/3 : ℚ) * (10 : ℚ) ^ 4⌋ = 3333 := by
    rw [Int.floor_eq_iff]
    norm_num
  have hround : pyRound (1/3 : ℚ) 4 = 3333/10000 := by
    rw [pyRound, roundHalfEven, hfloor]
    norm_num
  refine ⟨by decide, by decide, ?_, ?_⟩
  · simp only [detect_hallucination]
    rw [hraw, hround]
  · simp only [detect_hallucination]
    rw [hraw, hround, h2, h1]
    norm_num

/-- C7 (amended): the warning list contains the "human oversight required"
directive whenever severity is HIGH or CRITICAL or the quality score is
below 0.25 (not for MEDIUM severity, contrary to the claim), otherwise it
contains the lighter "review recommended" directive; no input produces
neither. -/
theorem claim_C7 (sev : String) (toks : List String) (q : ℚ) :
    ((sev = "HIGH" ∨ sev = "CRITICAL" ∨ q < 25/100) →
      oversightWarning ∈ generate_safety_warnings sev toks q) ∧
    (¬(sev = "HIGH" ∨ sev = "CRITICAL" ∨ q < 25/100) →
      reviewWarning ∈ generate_safety_warnings sev toks q) ∧
    (oversightWarning ∈ generate_safety_warnings sev toks q ∨
      reviewWarning ∈ generate_safety_warnings sev toks q) := by
  have hA : (sev = "HIGH" ∨ sev = "CRITICAL" ∨ q < 25/100) →
      oversightWarning ∈ generate_safety_warnings sev toks q := by
    intro h
    simp only [generate_safety_warnings]
    rw [if_pos h]
    simp
  have hB : ¬(sev = "HIGH" ∨ sev = "CRITICAL" ∨ q < 25/100) →
      reviewWarning ∈ generate_safety_warnings sev toks q := by
    intro h
    simp only [generate_safety_warnings]
    rw [if_neg h]
    simp
  refine ⟨hA, hB, ?_⟩
  by_cases h : (sev = "HIGH" ∨ sev = "CRITICAL" ∨ q < 25/100)
  · exact Or.inl (hA h)
  · exact Or.inr (hB h)

/-- C7 witness: the theorem applied at CRITICAL severity. -/
theorem claim_C7_witness :
    oversightWarning ∈ generate_safety_warnings "CRITICAL" [] 1 :=
  (claim_C7 "CRITICAL" [] 1).1 (Or.inr (Or.inl rfl))

/-- C7 counterexample: at MEDIUM severity with acceptable quality the code
emits only the lighter review directive, not the human-oversight directive
the claim requires for severity MEDIUM and above. -/
theorem claim_C7_counterexample :
    oversightWarning ∉ generate_safety_warnings "MEDIUM" [] (1/2) ∧
    reviewWarning ∈ generate_safety_warnings "MEDIUM" [] (1/2) := by
  have hlist : generate_safety_warnings "MEDIUM" [] (1/2) =
      ["⚠️ MEDIUM: Moderate hallucination detected (10-20%). " ++
       "Verify all mentioned functions and files exist in the diff.",
       reviewWarning] := by
    simp only [generate_safety_warnings]
    rw [if_neg (by decide), if_neg (by decide), if_pos trivial,
      if_neg (by norm_num), if_neg (by norm_num), if_neg (by simp),
      if_neg (by push_neg; exact ⟨by decide, by decide, by norm_num⟩)]
    simp
  rw [hlist]
  constructor
  · decide
  · simp

/-- C9: `validate_input` applies its checks in the fixed order rate limit,
empty content, size ceiling, line count, diff-marker sniff, sensitive-data
scan, returning the structured failure of the first failing check without
running later checks, and succeeds only when all checks pass; the rate
limiter first evicts timestamps older than 60 seconds, then rejects when
the remaining count is at or over the cap, and otherwise admits and records
the request; a sensitive-data match always rejects (the diff is never
altered or redacted). -/
theorem claim_C9 (patterns : List (String → Bool)) (diff : String)
    (store : List ℚ) (now : ℚ) :
    (RATE_LIMIT_RPM ≤ (store.filter (fun t => now - t < 60)).length →
      check_rate_limit store now = (false, store.filter (fun t => now - t < 60))) ∧
    ((store.filter (fun t => now - t < 60)).length < RATE_LIMIT_RPM →
      check_rate_limit store now =
        (true, store.filter (fun t => now - t < 60) ++ [now])) ∧
    ((check_rate_limit store now).1 = false →
      validate_input patterns diff store now =
        (false, .rateLimit, (check_rate_limit store now).2)) ∧
    ((check_rate_limit store now).1 = true → emptyDiffCheck diff = true →
      validate_input patterns diff store now =
        (false, .emptyDiff, (check_rate_limit store now).2)) ∧
    ((check_rate_limit store now).1 = true → emptyDiffCheck diff = false →
      sizeLimitCheck diff = true →
      validate_input patterns diff store now =
        (false, .sizeLimit, (check_rate_limit store now).2)) ∧
    ((check_rate_limit store now).1 = true → emptyDiffCheck diff = false →
      sizeLimitCheck diff = false → lineCountCheck diff = true →
      validate_input patterns diff store now =
        (false, .lineCount, (check_rate_limit store now).2)) ∧
    ((check_rate_limit store now).1 = true → emptyDiffCheck diff = false →
      sizeLimitCheck diff = false → lineCountCheck diff = false →
      hasDiffMarkers diff = false →
      validate_input patterns diff store now =
        (false, .formatMarkers, (check_rate_limit store now).2)) ∧
    ((check_rate_limit store now).1 = true → emptyDiffCheck diff = false →
      sizeLimitCheck diff = false → lineCountCheck diff = false →
      hasDiffMarkers diff = true → check_sensitive_data patterns diff = true →
      validate_input patterns diff store now =
        (false, .sensitiveData, (check_rate_limit store now).2)) ∧
    ((check_rate_limit store now).1 = true → emptyDiffCheck diff = false →
      sizeLimitCheck diff = false → lineCountCheck diff = false →
      hasDiffMarkers diff = true → check_sensitive_data patterns diff = false →
      validate_input patterns diff store now =
        (true, .passed, (check_rate_limit store now).2)) := by
  refine ⟨?_, ?_, ?_, ?_, ?_, ?_, ?_, ?_, ?_⟩
  · intro h
    simp only [check_rate_limit]
    rw [if_pos h]
  · intro h
    simp only [check_rate_limit]
    rw [if_neg (by omega)]
  · intro h1
    simp only [validate_input]
    rw [h1]
    simp
  · intro h1 h2
    simp only [validate_input]
    rw [h1]
    simp only [emptyDiffCheck, decide_eq_true_eq] at h2
    simp [h2]
  · intro h1 h2 h3
    simp only [validate_input]
    rw [h1]
    simp only [emptyDiffCheck, decide_eq_false_iff_not] at h2
    simp only [sizeLimitCheck, decide_eq_true_eq] at h3
    simp [h2, h3]
  · intro h1 h2 h3 h4
    simp only [validate_input]
    rw [h1]
    simp only [emptyDiffCheck, decide_eq_false_iff_not] at h2
    simp only [sizeLimitCheck, decide_eq_false_iff_not] at h3
    simp only [lineCountCheck, decide_eq_true_eq] at h4
    simp [h2, h3, h4]
  · intro h1 h2 h3 h4 h5
    simp only [validate_input]
    rw [h1]
    simp only [emptyDiffCheck, decide_eq_false_iff_not] at h2
    simp only [sizeLimitCheck, decide_eq_false_iff_not] at h3
    simp only [lineCountCheck, decide_eq_false_iff_not] at h4
    simp only [hasDiffMarkers] at h5
    simp [h2, h3, h4, h5]
  · intro h1 h2 h3 h4 h5 h6
    simp only [validate_input]
    rw [h1]
    simp only [emptyDiffCheck, decide_eq_false_iff_not] at h2
    simp only [sizeLimitCheck, decide_eq_false_iff_not] at h3
    simp only [lineCountCheck, decide_eq_false_iff_not] at h4
    simp only [hasDiffMarkers] at h5
    simp only [check_sensitive_data] at h6
    simp [h2, h3, h4, h5, h6]
  · intro h1 h2 h3 h4 h5 h6
    simp only [validate_input]
    rw [h1]
    simp only [emptyDiffCheck, decide_eq_false_iff_not] at h2
    simp only [sizeLimitCheck, decide_eq_false_iff_not] at h3
    simp only [lineCountCheck, decide_eq_false_iff_not] at h4
    simp only [hasDiffMarkers] at h5
    simp only [check_sensitive_data] at h6
    simp [h2, h3, h4, h5, h6]

/-- C9 witness: a one-line diff starting with `+` passes all checks from an
empty rate-limit store, and the request is recorded. -/
theorem claim_C9_witness :
    validate_input [] "+ fix" [] 0 = (true, .passed, [0]) := by
  have hsize : sizeLimitCheck "+ fix" = false := by
    have hb : String.utf8ByteSize "+ fix" = 5 := by decide
    simp only [sizeLimitCheck, hb]
    norm_num [MAX_DIFF_SIZE_KB]
  have hrl : (check_rate_limit [] 0).1 = true := by
    simp [check_rate_limit, RATE_LIMIT_RPM]
  have hfinal := (claim_C9 [] "+ fix" [] 0).2.2.2.2.2.2.2.2 hrl (by decide)
    hsize (by decide) (by decide) (by decide)
  have hstore : (check_rate_limit [] 0).2 = [0] := by
    simp [check_rate_limit, RATE_LIMIT_RPM]
  rw [hfinal, hstore]

theorem agentLoop_ok {μ ν : Type} (b : AgentBehaviour μ ν) :
    ∀ (fuel : ℕ) (msg : μ) (trail : List AgentDecision)
      (m : μ) (t : List AgentDecision) (c : ℕ),
      agentLoop b msg trail fuel = .ok (m, t, c) →
      c ≤ fuel ∧ ∃ s, t = trail ++ s := by
  intro fuel
  induction fuel with
  | zero =>
    intro msg trail m t c h
    simp only [agentLoop] at h
    cases h
    exact ⟨Nat.le_refl 0, [], by simp⟩
  | succ fuel ih =>
    intro msg trail m t c h
    simp only [agentLoop] at h
    cases hv : b.validate msg with
    | error e =>
      rw [hv] at h
      simp at h
    | ok v =>
      rw [hv] at h
      simp only at h
      by_cases hval : b.isValid v
      · rw [if_pos hval] at h
        cases h
        exact ⟨by omega, [validatorDecision], rfl⟩
      · rw [if_neg hval] at h
        cases hr : b.refine msg v with
        | error e =>
          rw [hr] at h
          simp at h
        | ok msg2 =>
          rw [hr] at h
          simp only at h
          cases hl : agentLoop b msg2 (trail ++ [validatorDecision] ++ [refinerDecision]) fuel with
          | error e =>
            rw [hl] at h
            simp at h
          | ok r =>
            obtain ⟨m0, t0, c0⟩ := r
            rw [hl] at h
            simp only at h
            cases h
            obtain ⟨hc0, s0, hs0⟩ := ih _ _ _ _ _ hl
            refine ⟨by omega, [validatorDecision] ++ [refinerDecision] ++ s0, ?_⟩
            rw [hs0]
            simp

theorem agentLoop_total {μ ν : Type} (b : AgentBehaviour μ ν)
    (hv : ∀ m, ∃ v, b.validate m = .ok v)
    (hr : ∀ m v, ∃ m2, b.refine m v = .ok m2) :
    ∀ (fuel : ℕ) (msg : μ) (trail : List AgentDecision),
      ∃ r, agentLoop b msg trail fuel = .ok r := by
  intro fuel
  induction fuel with
  | zero =>
    intro msg trail
    exact ⟨(msg, trail, 0), rfl⟩
  | succ fuel ih =>
    intro msg trail
    obtain ⟨v, hvm⟩ := hv msg
    by_cases hval : b.isValid v
    · refine ⟨(msg, trail ++ [validatorDecision], 1), ?_⟩
      simp only [agentLoop, hvm]
      rw [if_pos hval]
    · obtain ⟨m2, hm2⟩ := hr msg v
      obtain ⟨⟨m0, t0, c0⟩, hl⟩ := ih m2 (trail ++ [validatorDecision] ++ [refinerDecision])
      refine ⟨(m0, t0, c0 + 1), ?_⟩
      simp only [agentLoop, hvm]
      rw [if_neg hval]
      simp only [hm2, hl]

/-- C4: for every diff input and any generator behaviour, the agent loop
terminates within `maxIterations + 1` validation calls, a successful run's
audit trail holds at least 2 records (a Generator record and a Validator
record among them) and ends with the last message's own verdict; and when
every agent call succeeds, the orchestrator returns normally even if the
validator never accepts (exhaustion is a normal outcome, not an error). -/
theorem claim_C4 {μ ν : Type} (b : AgentBehaviour μ ν) (maxIterations : ℕ) :
    (∀ st : LoopResult μ ν, orchestrate b maxIterations = .ok st →
      st.validationCalls ≤ maxIterations + 1 ∧
      2 ≤ st.decisions.length ∧
      generatorDecision ∈ st.decisions ∧
      validatorDecision ∈ st.decisions ∧
      b.validate st.message = .ok st.verdict) ∧
    ((∃ m, b.generate = .ok m) →
      (∀ m, ∃ v, b.validate m = .ok v) →
      (∀ m v, ∃ m2, b.refine m v = .ok m2) →
      ∃ st : LoopResult μ ν, orchestrate b maxIterations = .ok st) := by
  constructor
  · intro st h
    simp only [orchestrate] at h
    cases hg : b.generate with
    | error e =>
      rw [hg] at h
      simp at h
    | ok m0 =>
      rw [hg] at h
      simp only at h
      cases hl : agentLoop b m0 [generatorDecision] maxIterations with
      | error e =>
        rw [hl] at h
        simp at h
      | ok r =>
        obtain ⟨m, t, c⟩ := r
        rw [hl] at h
        simp only at h
        cases hv : b.validate m with
        | error e =>
          rw [hv] at h
          simp at h
        | ok v =>
          rw [hv] at h
          simp only at h
          cases h
          obtain ⟨hc, s, hs⟩ := agentLoop_ok b maxIterations _ _ _ _ _ hl
          refine ⟨by simpa using hc, ?_, ?_, ?_, by simpa using hv⟩
          · simp [hs]
          · simp [hs]
          · simp
  · intro hg hv hr
    obtain ⟨m0, hm0⟩ := hg
    obtain ⟨⟨m, t, c⟩, hl⟩ := agentLoop_total b hv hr maxIterations m0 [generatorDecision]
    obtain ⟨v, hvm⟩ := hv m
    refine ⟨{ message := m, verdict := v,
              decisions := t ++ [validatorDecision], validationCalls := c + 1 }, ?_⟩
    simp only [orchestrate, hm0, hl, hvm]

/-- C4 witness: with the default iteration budget 3 and a validator that
never accepts, the orchestrator still returns normally, within 4 validation
calls and with at least the Generator and Validator records on the trail. -/
theorem claim_C4_witness :
    ∃ st : LoopResult ℕ ℕ, orchestrate neverValidBehaviour defaultMaxIterations = .ok st ∧
      st.validationCalls ≤ defaultMaxIterations + 1 ∧
      2 ≤ st.decisions.length ∧
      generatorDecision ∈ st.decisions ∧
      validatorDecision ∈ st.decisions := by
  obtain ⟨st, hst⟩ := (claim_C4 neverValidBehaviour defaultMaxIterations).2
    ⟨0, rfl⟩ (fun m => ⟨m, rfl⟩) (fun m _ => ⟨m + 1, rfl⟩)
  obtain ⟨h1, h2, h3, h4, _⟩ := (claim_C4 neverValidBehaviour defaultMaxIterations).1 st hst
  exact ⟨st, hst, h1, h2, h3, h4⟩

theorem sum_indicator_nodup {α : Type} [BEq α] [LawfulBEq α] [DecidableEq α] (a : α) :
    ∀ keys : List α, keys.Nodup →
      (keys.map (fun x => if a = x then (1 : ℕ) else 0)).sum =
        if a ∈ keys then 1 else 0 := by
  intro keys
  induction keys with
  | nil => simp
  | cons k ks ih =>
    intro h
    rcases List.nodup_cons.mp h with ⟨hk, hks⟩
    simp only [List.map_cons, List.sum_cons]
    by_cases hak : a = k
    · subst hak
      rw [if_pos rfl]
      have h0 : (ks.map (fun x => if a = x then (1 : ℕ) else 0)).sum = 0 := by
        apply List.sum_eq_zero
        intro y hy
        simp only [List.mem_map] at hy
        obtain ⟨x, hx, rfl⟩ := hy
        rw [if_neg]
        intro hax
        exact hk (hax ▸ hx)
      rw [h0]
      simp
    · rw [if_neg hak, ih hks]
      simp [List.mem_cons, hak]

theorem sum_counts_eq {α : Type} [BEq α] [LawfulBEq α] [DecidableEq α]
    (keys : List α) (hk : keys.Nodup) :
    ∀ l : List α,
      (keys.map (fun x => l.count x)).sum =
        (l.filter (fun x => decide (x ∈ keys))).length := by
  intro l
  induction l with
  | nil => simp
  | cons a l ih =>
    have hcc : keys.map (fun x => (a :: l).count x) =
        keys.map (fun x => l.count x + if a = x then 1 else 0) := by
      simp [List.count_cons]
    rw [hcc, List.sum_map_add, ih, sum_indicator_nodup a keys hk]
    by_cases ha : a ∈ keys
    · simp [List.filter_cons, ha]
    · simp [List.filter_cons, ha]

theorem counterMatches_self (g : List (List String)) :
    counterMatches g g = g.length := by
  unfold counterMatches
  have h1 : g.dedup.map (fun x => min (g.count x) (g.count x)) =
      g.dedup.map (fun x => g.count x) := by simp
  rw [h1, sum_counts_eq g.dedup (List.nodup_dedup g) g]
  have h2 : g.filter (fun x => decide (x ∈ g.dedup)) = g := by
    rw [List.filter_eq_self]
    intro a ha
    simpa [List.mem_dedup] using ha
  rw [h2]

theorem counterMatches_le_left (g r : List (List String)) :
    counterMatches g r ≤ g.length := by
  unfold counterMatches
  calc (g.dedup.map (fun x => min (g.count x) (r.count x))).sum
      ≤ (g.dedup.map (fun x => g.count x)).sum :=
        List.sum_le_sum (fun i _ => min_le_left _ _)
    _ = (g.filter (fun x => decide (x ∈ g.dedup))).length :=
        sum_counts_eq g.dedup (List.nodup_dedup g) g
    _ ≤ g.length := List.length_filter_le _ _

theorem counterMatches_le_right (g r : List (List String)) :
    counterMatches g r ≤ r.length := by
  unfold counterMatches
  calc (g.dedup.map (fun x => min (g.count x) (r.count x))).sum
      ≤ (g.dedup.map (fun x => r.count x)).sum :=
        List.sum_le_sum (fun i _ => min_le_right _ _)
    _ = (r.filter (fun x => decide (x ∈ g.dedup))).length :=
        sum_counts_eq g.dedup (List.nodup_dedup g) r
    _ ≤ r.length := List.length_filter_le _ _

theorem lcsTableAux_fuel (s1 s2 : List String) :
    ∀ f1 f2 i j, i + j ≤ f1 → i + j ≤ f2 →
      lcsTableAux s1 s2 f1 i j = lcsTableAux s1 s2 f2 i j := by
  intro f1
  induction f1 with
  | zero =>
    intro f2 i j h1 h2
    have hi : i = 0 := by omega
    subst hi
    cases f2 <;> simp [lcsTableAux]
  | succ f1 ih =>
    intro f2 i j h1 h2
    cases i with
    | zero =>
      cases f2 <;> simp [lcsTableAux]
    | succ i =>
      cases j with
      | zero =>
        cases f2 with
        | zero => omega
        | succ g => simp [lcsTableAux]
      | succ j =>
        cases f2 with
        | zero => omega
        | succ g =>
          simp only [lcsTableAux]
          rw [ih g i j (by omega) (by omega), ih g i (j + 1) (by omega) (by omega),
            ih g (i + 1) j (by omega) (by omega)]

theorem lcsTableAux_le (s1 s2 : List String) :
    ∀ fuel i j, lcsTableAux s1 s2 fuel i j ≤ i ∧ lcsTableAux s1 s2 fuel i j ≤ j := by
  intro fuel
  induction fuel with
  | zero =>
    intro i j
    simp [lcsTableAux]
  | succ fuel ih =>
    intro i j
    cases i with
    | zero => simp [lcsTableAux]
    | succ i =>
      cases j with
      | zero => simp [lcsTableAux]
      | succ j =>
        rw [lcsTableAux]
        split
        · have := ih i j
          omega
        · have h1 := ih i (j + 1)
          have h2 := ih (i + 1) j
          constructor
          · apply max_le <;> omega
          · apply max_le <;> omega

theorem lcsTable_self (x : List String) :
    ∀ i, i ≤ x.length → lcsTable x x i i = i := by
  intro i
  induction i with
  | zero => intro _; simp [lcsTable, lcsTableAux]
  | succ i ih =>
    intro h
    rw [lcsTable]
    have hstep : lcsTableAux x x (i + 1 + (i + 1)) (i + 1) (i + 1) =
        lcsTableAux x x (i + 1 + i + 1) (i + 1) (i + 1) := by
      apply lcsTableAux_fuel <;> omega
    rw [hstep]
    rw [lcsTableAux, if_pos rfl]
    rw [lcsTableAux_fuel x x (i + 1 + i) (i + i) i i (by omega) (by omega)]
    have := ih (by omega)
    rw [lcsTable] at this
    omega

theorem lcs_self (x : List String) : lcs x x = x.length :=
  lcsTable_self x x.length le_rfl

theorem lcsTable_le (s1 s2 : List String) (i j : ℕ) :
    lcsTable s1 s2 i j ≤ i ∧ lcsTable s1 s2 i j ≤ j :=
  lcsTableAux_le s1 s2 (i + j) i j

theorem getNgrams_length (tokens : List String) (n : ℕ) :
    (getNgrams tokens n).length = tokens.length + 1 - n := by
  simp [getNgrams]

theorem pyRound_100 : pyRound ((1 : ℚ) * 100) 2 = 100 := by
  have hfloor : ⌊(1 : ℚ) * 100 * (10 : ℚ) ^ 2⌋ = 10000 := by
    norm_num
  rw [pyRound, roundHalfEven, hfloor]
  norm_num

/-- C6 (amended): when the candidate token stream equals the reference
token stream, `compute_rouge` returns 100 for ROUGE-1, ROUGE-2 and ROUGE-L
when the stream has at least two tokens; for a single-token stream ROUGE-1
and ROUGE-L are 100 but ROUGE-2 is 0 (the stream has no bigrams, and
`_rouge_n` returns 0 when the reference has no n-grams), refuting the
claim's "for every non-empty" quantifier. -/
theorem claim_C6 (tok : TokEnv) (generated reference : String)
    (heq : tok.wt (pyLower generated) = tok.wt (pyLower reference)) :
    (2 ≤ (tok.wt (pyLower generated)).length →
      compute_rouge tok generated reference =
        { rouge1 := 100, rouge2 := 100, rougeL := 100 }) ∧
    ((tok.wt (pyLower generated)).length = 1 →
      compute_rouge tok generated reference =
        { rouge1 := 100, rouge2 := 0, rougeL := 100 }) := by
  set x := tok.wt (pyLower generated) with hx
  have hr1 : ∀ n : ℕ, 0 < x.length + 1 - n → rouge_n x x n = 1 := by
    intro n hn
    rw [rouge_n]
    rw [if_neg (by rw [getNgrams_length]; omega)]
    rw [counterMatches_self]
    apply div_self
    rw [getNgrams_length]
    exact_mod_cast Nat.pos_iff_ne_zero.mp hn
  have hrL : 0 < x.length → rouge_l x x = 1 := by
    intro hn
    rw [rouge_l, if_neg (by omega), lcs_self]
    apply div_self
    exact_mod_cast Nat.pos_iff_ne_zero.mp hn
  constructor
  · intro hlen
    simp only [compute_rouge, ← heq, ← hx]
    rw [hr1 1 (by omega), hr1 2 (by omega), hrL (by omega), pyRound_100]
  · intro hlen
    simp only [compute_rouge, ← heq, ← hx]
    rw [hr1 1 (by omega), hrL (by omega), pyRound_100]
    have h2 : rouge_n x x 2 = 0 := by
      rw [rouge_n, if_pos (by rw [getNgrams_length]; omega)]
    rw [h2]
    have : pyRound ((0 : ℚ) * 100) 2 = 0 := by
      rw [zero_mul, pyRound_zero]
    rw [this]

/-- C6 witness: a two-token self-match scores 100 on all three ROUGE
variants. -/
theorem claim_C6_witness :
    compute_rouge tokTwoTokens "a" "a" =
      { rouge1 := 100, rouge2 := 100, rougeL := 100 } :=
  (claim_C6 tokTwoTokens "a" "a" rfl).1 (by decide)

/-- C6 counterexample: a single-token self-match (candidate equals
reference, token stream non-empty) yields ROUGE-2 equal to 0, not 100. -/
theorem claim_C6_counterexample :
    tokSingleToken.wt (pyLower "a") = tokSingleToken.wt (pyLower "a") ∧
    tokSingleToken.wt (pyLower "a") ≠ [] ∧
    (compute_rouge tokSingleToken "a" "a").rouge2 = 0 ∧
    ((0 : ℚ) ≠ 100) := by
  refine ⟨rfl, by decide, ?_, by norm_num⟩
  have hx : tokSingleToken.wt (pyLower "a") = ["fix"] := rfl
  simp only [compute_rouge, hx]
  have h2 : rouge_n ["fix"] ["fix"] 2 = 0 := by
    rw [rouge_n, if_pos (by decide)]
  rw [h2, zero_mul, pyRound_zero]

theorem rouge_l_bounds (g r : List String) : 0 ≤ rouge_l g r ∧ rouge_l g r ≤ 1 := by
  rw [rouge_l]
  split
  · norm_num
  · rename_i hne
    have hpos : (0 : ℚ) < (r.length : ℚ) := by
      have : 0 < r.length := Nat.pos_of_ne_zero hne
      exact_mod_cast this
    constructor
    · apply div_nonneg _ (le_of_lt hpos)
      positivity
    · rw [div_le_one hpos]
      exact_mod_cast (lcsTable_le g r g.length r.length).2

theorem rougeL_field_bounds (tok : TokEnv) (g r : String) :
    0 ≤ (compute_rouge tok g r).rougeL ∧ (compute_rouge tok g r).rougeL ≤ 100 := by
  simp only [compute_rouge]
  obtain ⟨h0, h1⟩ := rouge_l_bounds (tok.wt (pyLower g)) (tok.wt (pyLower r))
  exact pyRound_bounds _ 2 100 10000 (by linarith) (by linarith) (by norm_num)

theorem compute_word_overlap_bounds (tok : TokEnv) (g r : String) :
    0 ≤ compute_word_overlap tok g r ∧ compute_word_overlap tok g r ≤ 1 := by
  rw [compute_word_overlap]
  split
  · norm_num
  · split
    · rename_i hu
      have hcard : (overlapSet tok g ∩ overlapSet tok r).card ≤
          (overlapSet tok g ∪ overlapSet tok r).card := by
        apply Finset.card_le_card
        exact Finset.Subset.trans Finset.inter_subset_left Finset.subset_union_left
      have hupos : (0 : ℚ) < ((overlapSet tok g ∪ overlapSet tok r).card : ℚ) := by
        exact_mod_cast hu
      apply pyRound_bounds _ 4 1 10000 _ _ (by norm_num)
      · apply div_nonneg _ (le_of_lt hupos)
        positivity
      · rw [div_le_one hupos]
        exact_mod_cast hcard
    · norm_num

theorem bleuPrecision_bounds (tok : TokEnv) (g r : String) (n : ℕ) :
    0 ≤ bleuPrecision tok g r n ∧ bleuPrecision tok g r n ≤ 1 := by
  rw [bleuPrecision]
  split
  · norm_num
  · rename_i hne
    have hpos : (0 : ℚ) < ((getNgrams (tok.wt (pyLower g)) n).length : ℚ) := by
      have : 0 < (getNgrams (tok.wt (pyLower g)) n).length := Nat.pos_of_ne_zero hne
      exact_mod_cast this
    constructor
    · apply div_nonneg _ (le_of_lt hpos)
      positivity
    · rw [div_le_one hpos]
      exact_mod_cast counterMatches_le_left _ _

theorem bleuGeoMean_bounds (tok : TokEnv) (g r : String)
    (hexp0 : ∀ q : ℚ, 0 ≤ tok.fexp q)
    (hexp1 : ∀ q : ℚ, q ≤ 0 → tok.fexp q ≤ 1)
    (hlog : ∀ q : ℚ, 0 < q → q ≤ 1 → tok.flog q ≤ 0) :
    0 ≤ bleuGeoMean tok g r ∧ bleuGeoMean tok g r ≤ 1 := by
  rw [bleuGeoMean]
  split
  · rename_i hall
    refine ⟨hexp0 _, hexp1 _ ?_⟩
    have hsum : ((bleuPrecisions tok g r).map tok.flog).sum ≤ 0 := by
      have hle : ((bleuPrecisions tok g r).map tok.flog).sum ≤
          ((bleuPrecisions tok g r).map (fun _ => (0 : ℚ))).sum := by
        apply List.sum_le_sum
        intro p hp
        have hppos : 0 < p := of_decide_eq_true (List.all_eq_true.mp hall p hp)
        have hup : p ≤ 1 := by
          rw [bleuPrecisions] at hp
          simp only [List.mem_map] at hp
          obtain ⟨k, _, rfl⟩ := hp
          exact (bleuPrecision_bounds tok g r (k + 1)).2
        exact hlog p hppos hup
      simpa using hle
    linarith
  · norm_num

theorem brevityPenalty_bounds (tok : TokEnv) (g r : String)
    (hgen : (tok.wt (pyLower g)).length ≠ 0)
    (hexp0 : ∀ q : ℚ, 0 ≤ tok.fexp q)
    (hexp1 : ∀ q : ℚ, q ≤ 0 → tok.fexp q ≤ 1) :
    0 ≤ brevityPenalty tok g r ∧ brevityPenalty tok g r ≤ 1 := by
  rw [brevityPenalty]
  split
  · norm_num
  · rename_i hlt
    push_neg at hlt
    have hgpos : (0 : ℚ) < ((tok.wt (pyLower g)).length : ℚ) := by
      have : 0 < (tok.wt (pyLower g)).length := Nat.pos_of_ne_zero hgen
      exact_mod_cast this
    refine ⟨hexp0 _, hexp1 _ ?_⟩
    have h1 : (1 : ℚ) ≤ ((tok.wt (pyLower r)).length : ℚ) /
        ((tok.wt (pyLower g)).length : ℚ) := by
      rw [one_le_div hgpos]
      exact_mod_cast le_of_lt hlt
    linarith

theorem compute_bleu_bounds (tok : TokEnv) (g r : String)
    (hexp0 : ∀ q : ℚ, 0 ≤ tok.fexp q)
    (hexp1 : ∀ q : ℚ, q ≤ 0 → tok.fexp q ≤ 1)
    (hlog : ∀ q : ℚ, 0 < q → q ≤ 1 → tok.flog q ≤ 0) :
    0 ≤ compute_bleu tok g r ∧ compute_bleu tok g r ≤ 100 := by
  rw [compute_bleu]
  split
  · norm_num
  · rename_i hgen
    obtain ⟨hg0, hg1⟩ := bleuGeoMean_bounds tok g r hexp0 hexp1 hlog
    obtain ⟨hb0, hb1⟩ := brevityPenalty_bounds tok g r hgen hexp0 hexp1
    apply pyRound_bounds _ 2 100 10000 _ _ (by norm_num)
    · positivity
    · nlinarith

/-- C8 (amended): the aggregated quality score is `round(0.3 * (bleu/100) +
0.3 * (rougeL/100) + 0.3 * semantic + bonus, 4)` where the bonus is a flat
0.1 exactly when no hallucination was detected (the code rounds the sum to
4 decimal places, so exact equality with the unrounded formula fails in
general); the semantic term is the (rounded) Jaccard similarity of the
stopword-filtered token sets, lies in [0,1], and the resulting quality
score is not clamped but always lies in [0, 1.1]. -/
theorem claim_C8 (tok : TokEnv) (generated reference diff : String)
    (hexp0 : ∀ q : ℚ, 0 ≤ tok.fexp q)
    (hexp1 : ∀ q : ℚ, q ≤ 0 → tok.fexp q ≤ 1)
    (hlog : ∀ q : ℚ, 0 < q → q ≤ 1 → tok.flog q ≤ 0) :
    dictGet (evaluate_message tok generated reference diff) "quality_score" (.float 0) =
      .float (pyRound (3/10 * (compute_bleu tok generated reference / 100) +
        3/10 * ((compute_rouge tok generated reference).rougeL / 100) +
        3/10 * compute_word_overlap tok generated reference +
        (if (detect_hallucination tok (1/10) generated diff).detected then 0 else 1/10)) 4) ∧
    0 ≤ compute_word_overlap tok generated reference ∧
    compute_word_overlap tok generated reference ≤ 1 ∧
    (∀ q : ℚ,
      dictGet (evaluate_message tok generated reference diff) "quality_score" (.float 0) =
        .float q → 0 ≤ q ∧ q ≤ 11/10) := by
  have heq : dictGet (evaluate_message tok generated reference diff) "quality_score"
      (.float 0) = .float (compute_quality_score (compute_bleu tok generated reference)
        (compute_rouge tok generated reference).rougeL
        (compute_word_overlap tok generated reference)
        (detect_hallucination tok (1/10) generated diff).detected) := by
    simp [evaluate_message, dictGet, List.find?]
  obtain ⟨hs0, hs1⟩ := compute_word_overlap_bounds tok generated reference
  refine ⟨by rw [heq]; rfl, hs0, hs1, ?_⟩
  intro q hq
  rw [heq] at hq
  cases hq
  obtain ⟨hb0, hb1⟩ := compute_bleu_bounds tok generated reference hexp0 hexp1 hlog
  obtain ⟨hr0, hr1⟩ := rougeL_field_bounds tok generated reference
  rw [compute_quality_score]
  have hbonus0 : (0 : ℚ) ≤
      (if (detect_hallucination tok (1/10) generated diff).detected then 0 else 1/10) := by
    split <;> norm_num
  have hbonus1 :
      (if (detect_hallucination tok (1/10) generated diff).detected then (0 : ℚ) else 1/10) ≤
        1/10 := by
    split <;> norm_num
  have := pyRound_bounds (3/10 * (compute_bleu tok generated reference / 100) +
      3/10 * ((compute_rouge tok generated reference).rougeL / 100) +
      3/10 * compute_word_overlap tok generated reference +
      (if (detect_hallucination tok (1/10) generated diff).detected then 0 else 1/10)) 4
      (11/10) 11000 (by linarith) (by linarith) (by norm_num)
  exact this

/-- C8 witness: the theorem applied to a concrete environment (`exp` and
`log` oracles instantiated by constants satisfying the analytic bounds). -/
theorem claim_C8_witness :
    0 ≤ compute_word_overlap tokTwoTokens "a" "b" ∧
    compute_word_overlap tokTwoTokens "a" "b" ≤ 1 :=
  ⟨(claim_C8 tokTwoTokens "a" "b" "c" (fun q => by norm_num [tokTwoTokens])
      (fun q _ => by norm_num [tokTwoTokens])
      (fun q _ _ => by norm_num [tokTwoTokens])).2.1,
   (claim_C8 tokTwoTokens "a" "b" "c" (fun q => by norm_num [tokTwoTokens])
      (fun q _ => by norm_num [tokTwoTokens])
      (fun q _ _ => by norm_num [tokTwoTokens])).2.2.1⟩

/-- C8 counterexample: with BLEU 0, ROUGE-L 16.67, Jaccard overlap 1/7
(stored as 0.1429) and no hallucination, the stored quality score is 0.1929
— not equal to the unrounded weighted formula, whether the semantic term is
taken as the exact Jaccard ratio 1/7 or as its stored rounding. -/
theorem claim_C8_counterexample :
    compute_bleu tokJaccardSeventh "G" "R" = 0 ∧
    (compute_rouge tokJaccardSeventh "G" "R").rougeL = 1667/100 ∧
    compute_word_overlap tokJaccardSeventh "G" "R" = 1429/10000 ∧
    (detect_hallucination tokJaccardSeventh (1/10) "G" "D").detected = false ∧
    dictGet (evaluate_message tokJaccardSeventh "G" "R" "D") "quality_score"
      (.float 0) = .float (1929/10000) ∧
    (1929/10000 : ℚ) ≠
      3/10 * ((0 : ℚ)/100) + 3/10 * ((1667/100)/100) + 3/10 * (1/7) + 1/10 ∧
    (1929/10000 : ℚ) ≠
      3/10 * ((0 : ℚ)/100) + 3/10 * ((1667/100)/100) + 3/10 * (1429/10000) + 1/10 := by
  have hgG : tokJaccardSeventh.wt (pyLower "G") = ["t01", "t02"] := rfl
  have hgR : tokJaccardSeventh.wt (pyLower "R") =
      ["t01", "t03", "t04", "t05", "t06", "t07"] := rfl
  have hp3 : bleuPrecision tokJaccardSeventh "G" "R" 3 = 0 := by
    rw [bleuPrecision, if_pos (by decide)]
  have hall : ¬((bleuPrecisions tokJaccardSeventh "G" "R").all
      (fun p => decide (0 < p)) = true) := by
    intro hall
    have hmem : bleuPrecision tokJaccardSeventh "G" "R" 3 ∈
        bleuPrecisions tokJaccardSeventh "G" "R" := by
      rw [bleuPrecisions]
      exact List.mem_map.mpr ⟨2, by decide, rfl⟩
    have := of_decide_eq_true (List.all_eq_true.mp hall _ hmem)
    rw [hp3] at this
    exact absurd this (lt_irrefl 0)
  have hgeo : bleuGeoMean tokJaccardSeventh "G" "R" = 0 := by
    rw [bleuGeoMean, if_neg hall]
  have hbleu : compute_bleu tokJaccardSeventh "G" "R" = 0 := by
    rw [compute_bleu, if_neg (by decide), hgeo, mul_zero, zero_mul, pyRound_zero]
  have hlcs : lcs ["t01", "t02"] ["t01", "t03", "t04", "t05", "t06", "t07"] = 1 := by
    decide
  have hrl : rouge_l ["t01", "t02"] ["t01", "t03", "t04", "t05", "t06", "t07"] =
      1/6 := by
    rw [rouge_l, if_neg (by decide), hlcs]
    norm_num
  have hfloor6 : ⌊(1/6 : ℚ) * 100 * (10 : ℚ) ^ 2⌋ = 1666 := by
    rw [Int.floor_eq_iff]
    norm_num
  have hrougeL : (compute_rouge tokJaccardSeventh "G" "R").rougeL = 1667/100 := by
    simp only [compute_rouge]
    rw [hgG, hgR, hrl, pyRound, roundHalfEven, hfloor6]
    norm_num
  have hfloor7 : ⌊(1/7 : ℚ) * (10 : ℚ) ^ 4⌋ = 1428 := by
    rw [Int.floor_eq_iff]
    norm_num
  have hsem : compute_word_overlap tokJaccardSeventh "G" "R" = 1429/10000 := by
    rw [compute_word_overlap, if_neg (by decide), if_pos (by decide)]
    have hinter : ((overlapSet tokJaccardSeventh "G") ∩
        (overlapSet tokJaccardSeventh "R")).card = 1 := by decide
    have hunion : ((overlapSet tokJaccardSeventh "G") ∪
        (overlapSet tokJaccardSeventh "R")).card = 7 := by decide
    rw [hinter, hunion]
    have harg : ((1 : ℕ) : ℚ) / ((7 : ℕ) : ℚ) = 1/7 := by norm_num
    rw [harg, pyRound, roundHalfEven, hfloor7]
    norm_num
  have hraw : rawHallucinationRate tokJaccardSeventh "G" "D" = 0 := by
    rw [rawHallucinationRate, if_neg (by decide)]
    have hlen : (ungroundedTokens tokJaccardSeventh "G" "D").length = 0 := by decide
    rw [hlen]
    norm_num
  have hdet : (detect_hallucination tokJaccardSeventh (1/10) "G" "D").detected =
      false := by
    simp only [detect_hallucination]
    rw [hraw]
    apply decide_eq_false
    norm_num
  have hqual : dictGet (evaluate_message tokJaccardSeventh "G" "R" "D")
      "quality_score" (.float 0) =
      .float (compute_quality_score (compute_bleu tokJaccardSeventh "G" "R")
        (compute_rouge tokJaccardSeventh "G" "R").rougeL
        (compute_word_overlap tokJaccardSeventh "G" "R")
        (detect_hallucination tokJaccardSeventh (1/10) "G" "D").detected) := by
    simp [evaluate_message, dictGet, List.find?]
  have hfloorq : ⌊(2411/12500 : ℚ) * (10 : ℚ) ^ 4⌋ = 1928 := by
    rw [Int.floor_eq_iff]
    norm_num
  have hq : compute_quality_score 0 (1667/100) (1429/10000) false = 1929/10000 := by
    rw [compute_quality_score]
    have harg : 3/10 * ((0 : ℚ) / 100) + 3/10 * ((1667/100) / 100) +
        3/10 * (1429/10000) + (if false then 0 else 1/10) = 2411/12500 := by
      norm_num
    rw [harg, pyRound, roundHalfEven, hfloorq]
    norm_num
  refine ⟨hbleu, hrougeL, hsem, hdet, ?_, by norm_num, by norm_num⟩
  rw [hqual, hbleu, hrougeL, hsem, hdet, hq]

theorem dropWhile_head_false (p : Char → Bool) :
    ∀ (l : List Char) (c : Char), (l.dropWhile p).head? = some c → p c = false := by
  intro l
  induction l with
  | nil => intro c h; simp at h
  | cons a as ih =>
    intro c h
    rw [List.dropWhile_cons] at h
    split at h
    · exact ih c h
    · rename_i hpa
      simp only [List.head?_cons, Option.some.injEq] at h
      subst h
      simpa using hpa

theorem dropWhile_eq_self_of_head (p : Char → Bool) (l : List Char)
    (h : ∀ c, l.head? = some c → p c = false) : l.dropWhile p = l := by
  cases l with
  | nil => rfl
  | cons a as =>
    rw [List.dropWhile_cons, if_neg]
    simp [h a rfl]

theorem pyStrip_head_false (l : List Char) :
    ∀ c, (pyStrip l).head? = some c → pyWS c = false := by
  intro c hc
  rw [pyStrip, List.head?_reverse] at hc
  obtain ⟨pre, hpre⟩ := List.dropWhile_suffix (l := (l.dropWhile pyWS).reverse) pyWS
  have hX : (l.dropWhile pyWS).reverse.getLast? = some c := by
    rw [← hpre, List.getLast?_append, hc]
    rfl
  rw [List.getLast?_reverse] at hX
  exact dropWhile_head_false pyWS l c hX

theorem pyStrip_last_false (l : List Char) :
    ∀ c, (pyStrip l).getLast? = some c → pyWS c = false := by
  intro c hc
  rw [pyStrip, List.getLast?_reverse] at hc
  exact dropWhile_head_false pyWS _ c hc

theorem pyStrip_eq_self (l : List Char)
    (h1 : ∀ c, l.head? = some c → pyWS c = false)
    (h2 : ∀ c, l.getLast? = some c → pyWS c = false) : pyStrip l = l := by
  rw [pyStrip, dropWhile_eq_self_of_head pyWS l h1,
    dropWhile_eq_self_of_head pyWS l.reverse
      (by intro c hc; rw [List.head?_reverse] at hc; exact h2 c hc),
    List.reverse_reverse]

theorem replaceBackticks_no_backtick (l : List Char) :
    backtickChar ∉ replaceBackticks l := by
  intro hmem
  rw [replaceBackticks] at hmem
  simp only [List.mem_map] at hmem
  obtain ⟨c, _, heq⟩ := hmem
  by_cases hb : c = backtickChar
  · rw [if_pos hb] at heq
    exact absurd heq (by decide)
  · rw [if_neg hb] at heq
    exact hb heq

theorem replaceBackticks_eq_self (l : List Char) (h : backtickChar ∉ l) :
    replaceBackticks l = l := by
  rw [replaceBackticks]
  have hc : ∀ c ∈ l, (if c = backtickChar then apostropheChar else c) = c := by
    intro c hcl
    rw [if_neg]
    intro hb
    exact h (hb ▸ hcl)
  calc l.map (fun c => if c = backtickChar then apostropheChar else c)
      = l.map id := List.map_congr_left hc
    _ = l := List.map_id l

theorem replCh_ws_false (c : Char) (h : pyWS c = false) :
    pyWS (if c = backtickChar then apostropheChar else c) = false := by
  by_cases hb : c = backtickChar
  · rw [if_pos hb]
    decide
  · rw [if_neg hb]
    exact h

theorem replaceBackticks_head_false (l : List Char)
    (h : ∀ c, l.head? = some c → pyWS c = false) :
    ∀ c, (replaceBackticks l).head? = some c → pyWS c = false := by
  intro c hc
  rw [replaceBackticks, List.head?_map] at hc
  cases hl : l.head? with
  | none => rw [hl] at hc; simp at hc
  | some c0 =>
    rw [hl] at hc
    have hfc : c = (if c0 = backtickChar then apostropheChar else c0) := by
      simpa using hc.symm
    rw [hfc]
    exact replCh_ws_false c0 (h c0 hl)

theorem replaceBackticks_last_false (l : List Char)
    (h : ∀ c, l.getLast? = some c → pyWS c = false) :
    ∀ c, (replaceBackticks l).getLast? = some c → pyWS c = false := by
  intro c hc
  rw [replaceBackticks, List.getLast?_map] at hc
  cases hl : l.getLast? with
  | none => rw [hl] at hc; simp at hc
  | some c0 =>
    rw [hl] at hc
    have hfc : c = (if c0 = backtickChar then apostropheChar else c0) := by
      simpa using hc.symm
    rw [hfc]
    exact replCh_ws_false c0 (h c0 hl)

theorem collapse_cons_ne (c : Char) (cs : List Char) (h : ¬(c = '\n')) :
    collapseNewlines (c :: cs) = c :: collapseNewlines cs := by
  rw [collapseNewlines, if_neg h]

theorem collapse_ne_nil (l : List Char) (h : l ≠ []) : collapseNewlines l ≠ [] := by
  cases l with
  | nil => exact absurd rfl h
  | cons c cs =>
    by_cases hc : c = '\n'
    · rw [collapseNewlines, if_pos hc]
      apply List.append_ne_nil_of_left_ne_nil
      split
      · simp
      · subst hc
        rw [List.takeWhile_cons, if_pos (by simp)]
        simp
    · rw [collapse_cons_ne c cs hc]
      simp

theorem dropRun_length (c : Char) (cs : List Char) :
    (List.dropWhile (fun d => d = '\n') (c :: cs)).length ≤ cs.length + 1 := by
  exact (List.dropWhile_suffix (fun d => d = '\n')).sublist.length_le

theorem collapse_head_false (l : List Char)
    (h : ∀ c, l.head? = some c → pyWS c = false) :
    ∀ c, (collapseNewlines l).head? = some c → pyWS c = false := by
  intro c hc
  cases l with
  | nil => simp [collapseNewlines] at hc
  | cons a as =>
    have ha : pyWS a = false := h a rfl
    have hne : ¬(a = '\n') := by
      intro hEq
      subst hEq
      exact absurd ha (by decide)
    rw [collapse_cons_ne a as hne] at hc
    simp only [List.head?_cons, Option.some.injEq] at hc
    subst hc
    exact ha

theorem collapse_mem (c : Char) :
    ∀ (n : ℕ) (l : List Char), l.length ≤ n →
      c ∈ collapseNewlines l → c ∈ l ∨ c = '\n' := by
  intro n
  induction n with
  | zero =>
    intro l hl hc
    have : l = [] := List.length_eq_zero.mp (by omega)
    subst this
    simp [collapseNewlines] at hc
  | succ n ih =>
    intro l hl hc
    cases l with
    | nil => simp [collapseNewlines] at hc
    | cons a as =>
      by_cases ha : a = '\n'
      · rw [collapseNewlines, if_pos ha] at hc
        rcases List.mem_append.mp hc with hleft | hright
        · right
          split at hleft
          · simpa using hleft
          · have := List.mem_takeWhile_imp (p := fun d => decide (d = '\n')) hleft
            exact of_decide_eq_true this
        · have hlen : (List.dropWhile (fun d => d = '\n') (a :: as)).length ≤ n := by
            have h1 : (List.dropWhile (fun d => d = '\n') (a :: as)).length ≤
                as.length + 1 := dropRun_length a as
            have h2 : List.dropWhile (fun d => d = '\n') (a :: as) =
                List.dropWhile (fun d => d = '\n') as := by
              rw [List.dropWhile_cons, if_pos (by simp [ha])]
            rw [h2]
            have := (List.dropWhile_suffix (l := as) (fun d => d = '\n')).sublist.length_le
            simp only [List.length_cons] at hl
            omega
          rcases ih _ hlen hright with hmem | hnl
          · left
            exact (List.dropWhile_suffix (fun d => d = '\n')).subset hmem
          · right
            exact hnl
      · rw [collapse_cons_ne a as ha] at hc
        rcases List.mem_cons.mp hc with rfl | htail
        · left
          simp
        · have hlen : as.length ≤ n := by
            simp only [List.length_cons] at hl
            omega
          rcases ih as hlen htail with hmem | hnl
          · left
            exact List.mem_cons_of_mem a hmem
          · right
            exact hnl

theorem collapse_last_false :
    ∀ (n : ℕ) (l : List Char), l.length ≤ n →
      (∀ c, l.getLast? = some c → pyWS c = false) →
      ∀ c, (collapseNewlines l).getLast? = some c → pyWS c = false := by
  intro n
  induction n with
  | zero =>
    intro l hl _ c hc
    have : l = [] := List.length_eq_zero.mp (by omega)
    subst this
    simp [collapseNewlines] at hc
  | succ n ih =>
    intro l hl hlast c hc
    cases l with
    | nil => simp [collapseNewlines] at hc
    | cons a as =>
      by_cases ha : a = '\n'
      · subst ha
        rw [collapseNewlines, if_pos rfl] at hc
        cases hrest : List.dropWhile (fun d => d = '\n') ('\n' :: as) with
        | nil =>
          exfalso
          have hl_eq : '\n' :: as = List.takeWhile (fun d => d = '\n') ('\n' :: as) := by
            conv_lhs => rw [← List.takeWhile_append_dropWhile
              (p := fun d => d = '\n') (l := '\n' :: as)]
            rw [hrest, List.append_nil]
          obtain ⟨c0, hc0⟩ := Option.isSome_iff_exists.mp
            ((List.getLast?_isSome (l := '\n' :: as)).mpr (by simp))
          have hc0nl : c0 = '\n' := by
            have hmem := List.mem_of_getLast?_eq_some hc0
            rw [hl_eq] at hmem
            have := List.mem_takeWhile_imp (p := fun d => decide (d = '\n')) hmem
            exact of_decide_eq_true this
          have := hlast c0 hc0
          rw [hc0nl] at this
          exact absurd this (by decide)
        | cons d ds =>
          have hdone : List.dropWhile (fun d => d = '\n') ('\n' :: as) ≠ [] := by
            rw [hrest]
            simp
          have hcoll_ne : collapseNewlines
              (List.dropWhile (fun d => d = '\n') ('\n' :: as)) ≠ [] :=
            collapse_ne_nil _ hdone
          rw [List.getLast?_append] at hc
          obtain ⟨c1, hc1⟩ := Option.isSome_iff_exists.mp
            ((List.getLast?_isSome (l := collapseNewlines
              (List.dropWhile (fun d => d = '\n') ('\n' :: as)))).mpr hcoll_ne)
          rw [hc1] at hc
          simp only [Option.or_some, Option.some.injEq] at hc
          subst hc
          have hlen : (List.dropWhile (fun d => d = '\n') ('\n' :: as)).length ≤ n := by
            have h2 : List.dropWhile (fun d => d = '\n') ('\n' :: as) =
                List.dropWhile (fun d => d = '\n') as := by
              rw [List.dropWhile_cons, if_pos (by simp)]
            rw [h2]
            have := (List.dropWhile_suffix (l := as) (fun d => d = '\n')).sublist.length_le
            simp only [List.length_cons] at hl
            omega
          apply ih _ hlen _ c1 hc1
          intro c2 hc2
          apply hlast c2
          conv_lhs => rw [← List.takeWhile_append_dropWhile
            (p := fun d => d = '\n') (l := '\n' :: as)]
          rw [List.getLast?_append, hc2]
          rfl
      · rw [collapse_cons_ne a as ha] at hc
        by_cases hase : as = []
        · subst hase
          simp only [collapseNewlines] at hc
          have hac : a = c := by simpa using hc
          rw [← hac]
          exact hlast a (by simp)
        · have hne : collapseNewlines as ≠ [] := collapse_ne_nil as hase
          obtain ⟨e, es, hcoll⟩ : ∃ e es, collapseNewlines as = e :: es := by
            cases hcl : collapseNewlines as with
            | nil => exact absurd hcl hne
            | cons e es => exact ⟨e, es, rfl⟩
          rw [hcoll, List.getLast?_cons_cons] at hc
          have hlen : as.length ≤ n := by
            simp only [List.length_cons] at hl
            omega
          apply ih as hlen _ c (by rw [hcoll]; exact hc)
          intro c2 hc2
          apply hlast c2
          cases as with
          | nil => exact absurd rfl hase
          | cons b bs =>
            rw [List.getLast?_cons_cons]
            exact hc2

theorem nt_short (l : List Char) (h : l.length ≤ 2) : noTripleNewline l = true := by
  cases l with
  | nil => rfl
  | cons a as =>
    cases as with
    | nil => rfl
    | cons b bs =>
      cases bs with
      | nil => rfl
      | cons c cs => simp at h

theorem nt_tail (c : Char) (l : List Char) (h : noTripleNewline (c :: l) = true) :
    noTripleNewline l = true := by
  cases l with
  | nil => rfl
  | cons b bs =>
    cases bs with
    | nil => rfl
    | cons d ds =>
      rw [noTripleNewline] at h
      simp only [Bool.and_eq_true] at h
      exact h.2

theorem nt_cons_of_ne (c : Char) (l : List Char) (hc : ¬(c = '\n'))
    (h : noTripleNewline l = true) : noTripleNewline (c :: l) = true := by
  cases l with
  | nil => rfl
  | cons b bs =>
    cases bs with
    | nil => rfl
    | cons d ds =>
      rw [noTripleNewline]
      simp [hc, h]

theorem nt_append :
    ∀ (n : ℕ) (A B : List Char), A.length ≤ n →
      noTripleNewline A = true → noTripleNewline B = true →
      (∀ c, B.head? = some c → ¬(c = '\n')) →
      noTripleNewline (A ++ B) = true := by
  intro n
  induction n with
  | zero =>
    intro A B hA _ hB _
    have : A = [] := List.length_eq_zero.mp (by omega)
    subst this
    simpa using hB
  | succ n ih =>
    intro A B hA hntA hB hBhead
    cases A with
    | nil => simpa using hB
    | cons a1 A1 =>
      cases A1 with
      | nil =>
        cases B with
        | nil => rfl
        | cons b1 B1 =>
          have hb1 : ¬(b1 = '\n') := hBhead b1 rfl
          cases B1 with
          | nil => rfl
          | cons b2 B2 =>
            rw [List.cons_append, List.nil_append, noTripleNewline]
            simp only [Bool.and_eq_true, Bool.not_eq_true']
            constructor
            · simp [hb1]
            · exact hB
      | cons a2 A2 =>
        cases A2 with
        | nil =>
          cases B with
          | nil => simpa using hntA
          | cons b1 B1 =>
            have hb1 : ¬(b1 = '\n') := hBhead b1 rfl
            rw [List.cons_append, List.cons_append, List.nil_append,
              noTripleNewline]
            simp only [Bool.and_eq_true, Bool.not_eq_true']
            constructor
            · simp [hb1]
            · have : noTripleNewline ([a2] ++ (b1 :: B1)) = true := by
                apply ih [a2] (b1 :: B1) (by simp at hA ⊢; omega) (by rfl) hB hBhead
              simpa using this
        | cons a3 A3 =>
          rw [noTripleNewline] at hntA
          simp only [Bool.and_eq_true] at hntA
          obtain ⟨hwin, htail⟩ := hntA
          have hres : noTripleNewline ((a2 :: a3 :: A3) ++ B) = true :=
            ih (a2 :: a3 :: A3) B (by simp at hA ⊢; omega) htail hB hBhead
          simp only [List.cons_append] at hres ⊢
          rw [noTripleNewline]
          simp only [Bool.and_eq_true]
          exact ⟨hwin, hres⟩

theorem nt_take :
    ∀ (n : ℕ) (l : List Char) (k : ℕ), l.length ≤ n →
      noTripleNewline l = true → noTripleNewline (l.take k) = true := by
  intro n
  induction n with
  | zero =>
    intro l k hl _
    have : l = [] := List.length_eq_zero.mp (by omega)
    subst this
    simp [nt_short]
  | succ n ih =>
    intro l k hl hnt
    cases l with
    | nil => rw [List.take_nil]; rfl
    | cons c1 l1 =>
      cases l1 with
      | nil =>
        apply nt_short
        simp only [List.length_take, List.length_cons, List.length_nil]
        omega
      | cons c2 l2 =>
        cases l2 with
        | nil =>
          apply nt_short
          simp only [List.length_take, List.length_cons, List.length_nil]
          omega
        | cons c3 l3 =>
          cases k with
          | zero => rw [List.take_zero]; rfl
          | succ k1 =>
            cases k1 with
            | zero => apply nt_short; rw [List.length_take]; omega
            | succ k2 =>
              cases k2 with
              | zero => apply nt_short; rw [List.length_take]; omega
              | succ m =>
                have htk : (c1 :: c2 :: c3 :: l3).take (m + 1 + 1 + 1) =
                    c1 :: c2 :: c3 :: l3.take m := by simp
                rw [htk, noTripleNewline]
                rw [noTripleNewline] at hnt
                simp only [Bool.and_eq_true] at hnt ⊢
                obtain ⟨hwin, htail⟩ := hnt
                refine ⟨hwin, ?_⟩
                have htk2 : (c2 :: c3 :: l3).take (m + 2) = c2 :: c3 :: l3.take m := by
                  simp
                rw [← htk2]
                apply ih (c2 :: c3 :: l3) (m + 2) (by simp at hl ⊢; omega) htail

theorem nt_append_right (A B : List Char)
    (h : noTripleNewline (A ++ B) = true) : noTripleNewline B = true := by
  induction A with
  | nil => simpa using h
  | cons a A ih =>
    apply ih
    rw [List.cons_append] at h
    exact nt_tail a (A ++ B) h

theorem collapse_noTriple :
    ∀ (n : ℕ) (l : List Char), l.length ≤ n →
      noTripleNewline (collapseNewlines l) = true := by
  intro n
  induction n with
  | zero =>
    intro l hl
    have : l = [] := List.length_eq_zero.mp (by omega)
    subst this
    simp only [collapseNewlines]
    rfl
  | succ n ih =>
    intro l hl
    cases l with
    | nil =>
      simp only [collapseNewlines]
      rfl
    | cons a as =>
      by_cases ha : a = '\n'
      · rw [collapseNewlines, if_pos ha]
        have hrest_len : (List.dropWhile (fun d => d = '\n') (a :: as)).length ≤ n := by
          have h2 : List.dropWhile (fun d => d = '\n') (a :: as) =
              List.dropWhile (fun d => d = '\n') as := by
            rw [List.dropWhile_cons, if_pos (by simp [ha])]
          rw [h2]
          have := (List.dropWhile_suffix (l := as) (fun d => d = '\n')).sublist.length_le
          simp only [List.length_cons] at hl
          omega
        have hY := ih _ hrest_len
        have hYhead : ∀ c,
            (collapseNewlines (List.dropWhile (fun d => d = '\n') (a :: as))).head? =
              some c → ¬(c = '\n') := by
          intro c hc
          cases hrest : List.dropWhile (fun d => d = '\n') (a :: as) with
          | nil => rw [hrest] at hc; simp [collapseNewlines] at hc
          | cons d ds =>
            have hd : ¬(d = '\n') := by
              have := dropWhile_head_false (fun d => decide (d = '\n')) (a :: as) d
                (by rw [hrest]; rfl)
              simpa using this
            rw [hrest, collapse_cons_ne d ds hd] at hc
            simp only [List.head?_cons, Option.some.injEq] at hc
            rw [← hc]
            exact hd
        apply nt_append 2
        · split
          · simp
          · rename_i hlt
            push_neg at hlt
            omega
        · split
          · rfl
          · apply nt_short
            rename_i hlt
            push_neg at hlt
            omega
        · exact hY
        · exact hYhead
      · rw [collapse_cons_ne a as ha]
        apply nt_cons_of_ne a _ ha
        apply ih as
        simp only [List.length_cons] at hl
        omega

theorem collapse_eq_self :
    ∀ (n : ℕ) (l : List Char), l.length ≤ n → noTripleNewline l = true →
      collapseNewlines l = l := by
  intro n
  induction n with
  | zero =>
    intro l hl _
    have : l = [] := List.length_eq_zero.mp (by omega)
    subst this
    simp [collapseNewlines]
  | succ n ih =>
    intro l hl hnt
    cases l with
    | nil => simp [collapseNewlines]
    | cons a as =>
      by_cases ha : a = '\n'
      · rw [collapseNewlines, if_pos ha]
        have hrun_short : ¬(3 ≤ (List.takeWhile (fun d => d = '\n') (a :: as)).length) := by
          intro h3
          obtain ⟨r1, r2, r3, rrest, hrun⟩ :
              ∃ r1 r2 r3 rrest, List.takeWhile (fun d => d = '\n') (a :: as) =
                r1 :: r2 :: r3 :: rrest := by
            cases hw : List.takeWhile (fun d => d = '\n') (a :: as) with
            | nil => rw [hw] at h3; simp at h3
            | cons r1 t1 =>
              cases t1 with
              | nil => rw [hw] at h3; simp at h3
              | cons r2 t2 =>
                cases t2 with
                | nil => rw [hw] at h3; simp at h3
                | cons r3 t3 => exact ⟨r1, r2, r3, t3, rfl⟩
          have hr1 : r1 = '\n' := by
            have : r1 ∈ List.takeWhile (fun d => decide (d = '\n')) (a :: as) := by
              rw [hrun]; simp
            exact of_decide_eq_true (List.mem_takeWhile_imp
              (p := fun d => decide (d = '\n')) this)
          have hr2 : r2 = '\n' := by
            have : r2 ∈ List.takeWhile (fun d => decide (d = '\n')) (a :: as) := by
              rw [hrun]; simp
            exact of_decide_eq_true (List.mem_takeWhile_imp
              (p := fun d => decide (d = '\n')) this)
          have hr3 : r3 = '\n' := by
            have : r3 ∈ List.takeWhile (fun d => decide (d = '\n')) (a :: as) := by
              rw [hrun]; simp
            exact of_decide_eq_true (List.mem_takeWhile_imp
              (p := fun d => decide (d = '\n')) this)
          have hsplit : a :: as = (r1 :: r2 :: r3 :: rrest) ++
              List.dropWhile (fun d => d = '\n') (a :: as) := by
            conv_lhs => rw [← List.takeWhile_append_dropWhile
              (p := fun d => d = '\n') (l := a :: as)]
            rw [hrun]
          rw [hsplit, hr1, hr2, hr3] at hnt
          rw [List.cons_append, List.cons_append, List.cons_append,
            noTripleNewline] at hnt
          simp at hnt
        rw [if_neg hrun_short]
        have hrest_len : (List.dropWhile (fun d => d = '\n') (a :: as)).length ≤ n := by
          have h2 : List.dropWhile (fun d => d = '\n') (a :: as) =
              List.dropWhile (fun d => d = '\n') as := by
            rw [List.dropWhile_cons, if_pos (by simp [ha])]
          rw [h2]
          have := (List.dropWhile_suffix (l := as) (fun d => d = '\n')).sublist.length_le
          simp only [List.length_cons] at hl
          omega
        have hntrest : noTripleNewline (List.dropWhile (fun d => d = '\n') (a :: as)) =
            true := by
          apply nt_append_right (List.takeWhile (fun d => d = '\n') (a :: as))
          rw [List.takeWhile_append_dropWhile]
          exact hnt
        rw [ih _ hrest_len hntrest, List.takeWhile_append_dropWhile]
      · rw [collapse_cons_ne a as ha]
        rw [ih as (by simp only [List.length_cons] at hl; omega) (nt_tail a as hnt)]

theorem take_head (l : List Char) (n : ℕ) (hn : 0 < n) :
    (l.take n).head? = l.head? := by
  cases l with
  | nil => simp
  | cons a as =>
    cases n with
    | zero => omega
    | succ m => simp

/-- C10: output sanitation is idempotent — `sanitize(sanitize(x)) =
sanitize(x)` for every character sequence — and the sanitized result
contains no backticks, no run of three or more consecutive newlines, and
its length is bounded by `MAX_MESSAGE_LENGTH` plus the truncation marker. -/
theorem claim_C10 (x : List Char) :
    sanitize_output (sanitize_output x) = sanitize_output x ∧
    backtickChar ∉ sanitize_output x ∧
    noTripleNewline (sanitize_output x) = true ∧
    (sanitize_output x).length ≤ MAX_MESSAGE_LENGTH + truncationMarker.length := by
  have h3head : ∀ c, (collapseNewlines (replaceBackticks (pyStrip x))).head? = some c →
      pyWS c = false :=
    collapse_head_false _ (replaceBackticks_head_false _ (pyStrip_head_false x))
  have h3last : ∀ c, (collapseNewlines (replaceBackticks (pyStrip x))).getLast? = some c →
      pyWS c = false :=
    collapse_last_false (replaceBackticks (pyStrip x)).length _ le_rfl
      (replaceBackticks_last_false _ (pyStrip_last_false x))
  have h3tick : backtickChar ∉ collapseNewlines (replaceBackticks (pyStrip x)) := by
    intro hmem
    rcases collapse_mem backtickChar (replaceBackticks (pyStrip x)).length _ le_rfl hmem
      with h | h
    · exact replaceBackticks_no_backtick (pyStrip x) h
    · exact absurd h (by decide)
  have h3nt : noTripleNewline (collapseNewlines (replaceBackticks (pyStrip x))) = true :=
    collapse_noTriple (replaceBackticks (pyStrip x)).length _ le_rfl
  have hsan : sanitize_output x =
      if MAX_MESSAGE_LENGTH <
          (collapseNewlines (replaceBackticks (pyStrip x))).length then
        (collapseNewlines (replaceBackticks (pyStrip x))).take MAX_MESSAGE_LENGTH ++
          truncationMarker
      else collapseNewlines (replaceBackticks (pyStrip x)) := rfl
  by_cases hlen : MAX_MESSAGE_LENGTH <
      (collapseNewlines (replaceBackticks (pyStrip x))).length
  · rw [hsan, if_pos hlen]
    set A := (collapseNewlines (replaceBackticks (pyStrip x))).take MAX_MESSAGE_LENGTH
      with hA
    have hA_len : A.length = MAX_MESSAGE_LENGTH := by
      rw [hA, List.length_take]
      omega
    have hAhead : (A ++ truncationMarker).head? =
        (collapseNewlines (replaceBackticks (pyStrip x))).head? := by
      rw [List.head?_append, hA, take_head _ _ (by rw [MAX_MESSAGE_LENGTH]; omega)]
      cases hh : (collapseNewlines (replaceBackticks (pyStrip x))).head? with
      | none =>
        exfalso
        have : collapseNewlines (replaceBackticks (pyStrip x)) = [] := by
          cases hc : collapseNewlines (replaceBackticks (pyStrip x)) with
          | nil => rfl
          | cons e es => rw [hc] at hh; simp at hh
        rw [this] at hlen
        simp [MAX_MESSAGE_LENGTH] at hlen
      | some c => rfl
    have houthead : ∀ c, (A ++ truncationMarker).head? = some c → pyWS c = false := by
      intro c hc
      rw [hAhead] at hc
      exact h3head c hc
    have houtlast : ∀ c, (A ++ truncationMarker).getLast? = some c → pyWS c = false := by
      intro c hc
      rw [List.getLast?_append] at hc
      have hm : truncationMarker.getLast? = some ')' := rfl
      rw [hm] at hc
      simp only [Option.or_some, Option.some.injEq] at hc
      rw [← hc]
      decide
    have houttick : backtickChar ∉ A ++ truncationMarker := by
      intro hmem
      rcases List.mem_append.mp hmem with h | h
      · exact h3tick (List.take_subset _ _ h)
      · exact absurd h (by decide)
    have houtnt : noTripleNewline (A ++ truncationMarker) = true := by
      apply nt_append A.length A truncationMarker le_rfl
      · rw [hA]
        exact nt_take (collapseNewlines (replaceBackticks (pyStrip x))).length _
          MAX_MESSAGE_LENGTH le_rfl h3nt
      · decide
      · intro c hc
        have hm : truncationMarker.head? = some '.' := rfl
        rw [hm] at hc
        simp only [Option.some.injEq] at hc
        rw [← hc]
        decide
    have houtlen : (A ++ truncationMarker).length =
        MAX_MESSAGE_LENGTH + truncationMarker.length := by
      rw [List.length_append, hA_len]
    refine ⟨?_, houttick, houtnt, by omega⟩
    have hstrip : pyStrip (A ++ truncationMarker) = A ++ truncationMarker :=
      pyStrip_eq_self _ houthead houtlast
    have hrep : replaceBackticks (A ++ truncationMarker) = A ++ truncationMarker :=
      replaceBackticks_eq_self _ houttick
    have hcol : collapseNewlines (A ++ truncationMarker) = A ++ truncationMarker :=
      collapse_eq_self (A ++ truncationMarker).length _ le_rfl houtnt
    show (if MAX_MESSAGE_LENGTH <
        (collapseNewlines (replaceBackticks (pyStrip (A ++ truncationMarker)))).length then
        (collapseNewlines (replaceBackticks
          (pyStrip (A ++ truncationMarker)))).take MAX_MESSAGE_LENGTH ++ truncationMarker
      else collapseNewlines (replaceBackticks (pyStrip (A ++ truncationMarker)))) =
      A ++ truncationMarker
    rw [hstrip, hrep, hcol, if_pos (by rw [houtlen]; decide)]
    have htake : (A ++ truncationMarker).take MAX_MESSAGE_LENGTH = A := by
      rw [← hA_len, List.take_left]
    rw [htake]
  · rw [hsan, if_neg hlen]
    refine ⟨?_, h3tick, h3nt, by push_neg at hlen; omega⟩
    have hstrip : pyStrip (collapseNewlines (replaceBackticks (pyStrip x))) =
        collapseNewlines (replaceBackticks (pyStrip x)) :=
      pyStrip_eq_self _ h3head h3last
    have hrep : replaceBackticks (collapseNewlines (replaceBackticks (pyStrip x))) =
        collapseNewlines (replaceBackticks (pyStrip x)) :=
      replaceBackticks_eq_self _ h3tick
    have hcol : collapseNewlines (collapseNewlines (replaceBackticks (pyStrip x))) =
        collapseNewlines (replaceBackticks (pyStrip x)) :=
      collapse_eq_self (collapseNewlines (replaceBackticks (pyStrip x))).length _
        le_rfl h3nt
    show (if MAX_MESSAGE_LENGTH <
        (collapseNewlines (replaceBackticks (pyStrip
          (collapseNewlines (replaceBackticks (pyStrip x)))))).length then
        (collapseNewlines (replaceBackticks (pyStrip
          (collapseNewlines (replaceBackticks (pyStrip x)))))).take
            MAX_MESSAGE_LENGTH ++ truncationMarker
      else collapseNewlines (replaceBackticks (pyStrip
        (collapseNewlines (replaceBackticks (pyStrip x)))))) =
      collapseNewlines (replaceBackticks (pyStrip x))
    rw [hstrip, hrep, hcol, if_neg hlen]

/-- C5 witness: the theorem applied at a concrete environment and inputs. -/
theorem claim_C5_witness :
    (validator_execute tokTwoTokens "msg" "diff" "ref").severity = "NONE" :=
  (claim_C5 tokTwoTokens "msg" "diff" "ref").1

/-- C10 witness: the theorem applied at a concrete character list. -/
theorem claim_C10_witness :
    sanitize_output (sanitize_output ('h' :: 'i' :: [])) =
      sanitize_output ('h' :: 'i' :: []) :=
  (claim_C10 ('h' :: 'i' :: [])).1

end SmartCommit
